import Mathlib

/-!
Verification development for the atx311 import script (`import.py`).

The script reads a CSV of 311 service requests, remaps each row into a
normalized document through a static field-mapping table, derives a
monthly index name from the document's timestamp, registers an index
template, and bulk-loads the documents in fixed-size batches.

Shallow embedding conventions:
* CSV rows are functions `String → Option String` (a column is either
  absent, or present with a raw string value; `DictReader`'s `None`
  values for missing trailing cells behave exactly like the empty
  string under the script's truthiness test, so they are modelled by
  the empty string).
* JSON-safe values are the inductive `JValue`.  Python floats are
  modelled by their decimal-digit form (sign, integer part, fractional
  digit list), the form in which the script's converters produce them
  and in which `json.dumps` emits them; scientific notation, inf and
  nan never arise in the pipeline and are outside the modelled
  fragment.
* Fallible Python code (conversion errors, KeyError, strptime
  ValueError, HTTP raise_for_status) returns `Except String _`.
* All definitions are executable and use structural recursion (with a
  fuel argument where needed) so that concrete runs reduce.
-/

namespace Atx311

/-- Decidable equality for `Except`, needed to state concrete runs. -/
instance {ε α : Type} [DecidableEq ε] [DecidableEq α] : DecidableEq (Except ε α) :=
  fun a b =>
    match a, b with
    | Except.ok x, Except.ok y =>
      if h : x = y then isTrue (by rw [h]) else isFalse (fun hc => by cases hc; exact h rfl)
    | Except.error x, Except.error y =>
      if h : x = y then isTrue (by rw [h]) else isFalse (fun hc => by cases hc; exact h rfl)
    | Except.ok _, Except.error _ => isFalse (fun hc => by cases hc)
    | Except.error _, Except.ok _ => isFalse (fun hc => by cases hc)

/-- JSON-safe document values: the converters in `ROW_TO_FIELD` produce
strings, integers, floats and `None`. -/
inductive JValue : Type
  | jnull : JValue
  | jstr : String → JValue
  | jint : Int → JValue
  | jfloat : Bool → Nat → List Nat → JValue
  deriving DecidableEq

/-- The four converter functions appearing in `ROW_TO_FIELD`
(`str`, `int`, `float`, `coordinates`). -/
inductive Formatter : Type
  | fstr : Formatter
  | fint : Formatter
  | ffloat : Formatter
  | fcoords : Formatter
  deriving DecidableEq

/-- `MappedField` dataclass: target name, Elasticsearch field schema,
and converter function. -/
structure MappedField : Type where
  new_name : String
  es_format : List (String × String)
  row_formatter : Formatter
  deriving DecidableEq

/-- `HydratedDocumentResponse` dataclass. -/
structure HydratedDocumentResponse : Type where
  field_mapping : MappedField
  document : List (String × JValue)
  deriving DecidableEq

/-- Python `\s` whitespace (the six ASCII whitespace characters). -/
def isPyWs (c : Char) : Bool :=
  c = ' ' ∨ c = '\t' ∨ c = '\n' ∨ c = '\r' ∨ c = '\x0b' ∨ c = '\x0c'

/-- One-or-more decimal digits, a dot, one-or-more decimal digits:
the `\d+\.\d+` fragments of the `coordinates` regex.  Returns the
matched characters and the rest.  (Python's `\d` also matches
non-ASCII Unicode digits; the model restricts to ASCII digits.) -/
def parseDecimalChars (l : List Char) : Option (List Char × List Char) :=
  match l.takeWhile Char.isDigit with
  | [] => none
  | ds =>
    match l.dropWhile Char.isDigit with
    | '.' :: r2 =>
      match r2.takeWhile Char.isDigit with
      | [] => none
      | fs => some (ds ++ '.' :: fs, r2.dropWhile Char.isDigit)
    | _ => none

/-- `coordinates` from `import.py`: match the anchored pattern
`^\((\d+\.\d+), (-+\d+\.\d+)\)$` and return `"lat,lon"`, else `None`.
Note the longitude group requires ONE OR MORE minus signs (`-+`).
`re.match`'s `$` also matches just before a single trailing newline,
hence the two accepting arms at the end. -/
def coordinates (input_str : String) : Option String :=
  match input_str.data with
  | '(' :: r0 =>
    match parseDecimalChars r0 with
    | none => none
    | some (lat, r1) =>
      match r1 with
      | ',' :: ' ' :: r2 =>
        match r2.takeWhile (fun c => c = '-') with
        | [] => none
        | ms =>
          match parseDecimalChars (r2.dropWhile (fun c => c = '-')) with
          | none => none
          | some (lon, r3) =>
            match r3 with
            | [')'] => some (String.mk (lat ++ ',' :: ms ++ lon))
            | [')', '\n'] => some (String.mk (lat ++ ',' :: ms ++ lon))
            | _ => none
      | _ => none
  | _ => none

/-- Digit run with Python's single-underscore grouping (`int("1_0") = 10`);
an underscore not followed by a digit makes the whole literal invalid. -/
def udLoop : List Char → List Nat → Option (List Nat × List Char)
  | [], acc => some (acc, [])
  | c :: rest, acc =>
    if c.isDigit then udLoop rest (acc ++ [c.toNat - 48])
    else if c = '_' then
      match rest with
      | d :: r2 => if d.isDigit then udLoop r2 (acc ++ [d.toNat - 48]) else none
      | [] => none
    else some (acc, c :: rest)

/-- Decimal value of a digit list (most significant first). -/
def digitsVal (ds : List Nat) : Nat := ds.foldl (fun a d => a * 10 + d) 0

/-- Decimal value of a digit-character list. -/
def digitCharsVal (ds : List Char) : Nat := ds.foldl (fun a c => a * 10 + (c.toNat - 48)) 0

/-- Core of Python `int(str)` after whitespace stripping and sign removal:
digits (with underscore grouping), then optional trailing whitespace.
(Unicode digits/whitespace are modelled as their ASCII counterparts.) -/
def pyIntCore (neg : Bool) (l : List Char) : Except String Int :=
  match l with
  | c :: _ =>
    if c.isDigit then
      match udLoop l [] with
      | none => Except.error "ValueError: invalid literal for int() with base 10"
      | some (ds, rest) =>
        if rest.dropWhile isPyWs = [] then
          Except.ok (if neg then -(Int.ofNat (digitsVal ds)) else Int.ofNat (digitsVal ds))
        else Except.error "ValueError: invalid literal for int() with base 10"
    else Except.error "ValueError: invalid literal for int() with base 10"
  | [] => Except.error "ValueError: invalid literal for int() with base 10"

/-- Python `int(str)` (the `int` converter of `ROW_TO_FIELD`). -/
def pyInt (s : String) : Except String Int :=
  match s.data.dropWhile isPyWs with
  | '-' :: r => pyIntCore true r
  | '+' :: r => pyIntCore false r
  | l => pyIntCore false l

/-- Core of Python `float(str)` after stripping and sign removal, for the
decimal forms `d+`, `d+.d*`, `.d+`.  The result keeps the decimal digits
exactly (a float with no fractional digits is `x.0`, matching `repr`).
Exponent, inf and nan forms never occur in the pipeline and are outside
the modelled fragment. -/
def pyFloatCore (neg : Bool) (l : List Char) : Except String JValue :=
  match l.dropWhile Char.isDigit with
  | '.' :: r2 =>
    if l.takeWhile Char.isDigit = [] ∧ r2.takeWhile Char.isDigit = [] then
      Except.error "ValueError: could not convert string to float"
    else if (r2.dropWhile Char.isDigit).dropWhile isPyWs = [] then
      Except.ok (JValue.jfloat neg (digitCharsVal (l.takeWhile Char.isDigit))
        (match r2.takeWhile Char.isDigit with
         | [] => [0]
         | fs => fs.map (fun c => c.toNat - 48)))
    else Except.error "ValueError: could not convert string to float"
  | r1 =>
    if l.takeWhile Char.isDigit = [] then
      Except.error "ValueError: could not convert string to float"
    else if r1.dropWhile isPyWs = [] then
      Except.ok (JValue.jfloat neg (digitCharsVal (l.takeWhile Char.isDigit)) [0])
    else Except.error "ValueError: could not convert string to float"

/-- Python `float(str)` (the `float` converter of `ROW_TO_FIELD`). -/
def pyFloat (s : String) : Except String JValue :=
  match s.data.dropWhile isPyWs with
  | '-' :: r => pyFloatCore true r
  | '+' :: r => pyFloatCore false r
  | l => pyFloatCore false l

/-- Apply a converter to a raw cell value, as `_document_from_row` does.
`str` on a string is the identity; `int`/`float` raise on bad input;
`coordinates` returns `None` (→ JSON `null`) on a pattern mismatch and
never raises. -/
def applyFormatter : Formatter → String → Except String JValue
  | Formatter.fstr, s => Except.ok (JValue.jstr s)
  | Formatter.fint, s =>
    match pyInt s with
    | Except.error e => Except.error e
    | Except.ok n => Except.ok (JValue.jint n)
  | Formatter.ffloat, s => pyFloat s
  | Formatter.fcoords, s =>
    match coordinates s with
    | some c => Except.ok (JValue.jstr c)
    | none => Except.ok JValue.jnull

/-- The static `ROW_TO_FIELD` mapping table, in dict insertion order. -/
def ROW_TO_FIELD : List (String × MappedField) :=
  [ ("Service Request (SR) Number",
      { new_name := "sr_req_number", es_format := [("type", "keyword")],
        row_formatter := Formatter.fstr }),
    ("SR Description",
      { new_name := "sr_req_description", es_format := [("type", "keyword")],
        row_formatter := Formatter.fstr }),
    ("Method Recieved",
      { new_name := "sr_req_method_recieved", es_format := [("type", "keyword")],
        row_formatter := Formatter.fstr }),
    ("SR Status",
      { new_name := "sr_req_status", es_format := [("type", "keyword")],
        row_formatter := Formatter.fstr }),
    ("Status Change Date",
      { new_name := "sr_req_status_change_date",
        es_format := [("type", "date"), ("format", "MM/dd/yyyy HH:mm:ss a")],
        row_formatter := Formatter.fstr }),
    ("Created Date",
      { new_name := "timestamp",
        es_format := [("type", "date"), ("format", "MM/dd/yyyy HH:mm:ss a")],
        row_formatter := Formatter.fstr }),
    ("Last Update Date",
      { new_name := "sr_req_last_updated_date",
        es_format := [("type", "date"), ("format", "MM/dd/yyyy HH:mm:ss a")],
        row_formatter := Formatter.fstr }),
    ("Close Date",
      { new_name := "sr_req_closed_date",
        es_format := [("type", "date"), ("format", "MM/dd/yyyy HH:mm:ss a")],
        row_formatter := Formatter.fstr }),
    ("SR Location",
      { new_name := "sr_req_location", es_format := [("type", "text")],
        row_formatter := Formatter.fstr }),
    ("Council District",
      { new_name := "sr_req_council_district_number", es_format := [("type", "integer")],
        row_formatter := Formatter.fint }),
    ("Latitude Coordinate",
      { new_name := "sr_req_latitude_coordinate", es_format := [("type", "float")],
        row_formatter := Formatter.ffloat }),
    ("Longitude Coordinate",
      { new_name := "sr_req_longitude_coordinate", es_format := [("type", "float")],
        row_formatter := Formatter.ffloat }),
    ("(Latitude.Longitude)",
      { new_name := "sr_req_coordinates", es_format := [("type", "geo_point")],
        row_formatter := Formatter.fcoords }) ]

/-- The loop body of `_document_from_row`: walk the mapping table in
order; a column present in the row writes `convert(raw)` (or `null` for
a falsy raw value) under the target name; an absent column writes
nothing.  The second component threads the Python loop variable
`mapping`, which after the loop holds the LAST table entry. -/
def hydrateFields (row : String → Option String) :
    List (String × MappedField) → Option MappedField →
    Except String (List (String × JValue) × Option MappedField)
  | [], last => Except.ok ([], last)
  | (col, m) :: rest, _ =>
    match row col with
    | none => hydrateFields row rest (some m)
    | some raw =>
      if raw = "" then
        match hydrateFields row rest (some m) with
        | Except.error e => Except.error e
        | Except.ok (tail, last) => Except.ok ((m.new_name, JValue.jnull) :: tail, last)
      else
        match applyFormatter m.row_formatter raw with
        | Except.error e => Except.error e
        | Except.ok v =>
          match hydrateFields row rest (some m) with
          | Except.error e => Except.error e
          | Except.ok (tail, last) => Except.ok ((m.new_name, v) :: tail, last)

/-- `_document_from_row`: build the document and return it together with
the leftover loop variable `mapping` as `field_mapping`. -/
def documentFromRow (row : String → Option String) : Except String HydratedDocumentResponse :=
  match hydrateFields row ROW_TO_FIELD none with
  | Except.error e => Except.error e
  | Except.ok (_, none) => Except.error "NameError: name mapping is not defined"
  | Except.ok (d, some m) => Except.ok { field_mapping := m, document := d }

/-! ### Decimal rendering (Python `str` of a non-negative int) -/

/-- Decimal digits of `n`, most significant first, with explicit fuel so
that the definition is structurally recursive (fuel `n` always
suffices because `n < 10 ^ n`). -/
def natDigitsAux : Nat → Nat → List Nat
  | 0, n => [n]
  | fuel + 1, n => if n < 10 then [n] else natDigitsAux fuel (n / 10) ++ [n % 10]

/-- Decimal digits of `n`, most significant first. -/
def natDigits (n : Nat) : List Nat := natDigitsAux n n

/-- The character of a decimal digit. -/
def digitChar (d : Nat) : Char := Char.ofNat (48 + d)

/-- Decimal digit characters of `n`. -/
def natChars (n : Nat) : List Char := (natDigits n).map digitChar

/-- Python `str(n)` for a natural number / `f"{n}"`. -/
def renderNat (n : Nat) : String := String.mk (natChars n)

/-- Python `f"{n:02d}"` for a natural number. -/
def pad2 (n : Nat) : String := if n < 10 then "0" ++ renderNat n else renderNat n

/-! ### `datetime.strptime` for the fixed format `%m/%d/%Y %I:%M:%S %p` -/

/-- The result of a successful `datetime.strptime` call (the fields the
script uses, after 12-hour → 24-hour adjustment). -/
structure PyDateTime : Type where
  year : Nat
  month : Nat
  day : Nat
  hour : Nat
  minute : Nat
  second : Nat
  deriving DecidableEq

/-- One or two decimal digits, greedy.  Each numeric directive of the
format is followed by a non-digit literal, so greediness agrees with
the backtracking regex `_strptime` builds. -/
def parseNum2 : List Char → Option (Nat × List Char)
  | c1 :: c2 :: rest =>
    if c1.isDigit then
      if c2.isDigit then some ((c1.toNat - 48) * 10 + (c2.toNat - 48), rest)
      else some (c1.toNat - 48, c2 :: rest)
    else none
  | [c1] => if c1.isDigit then some (c1.toNat - 48, []) else none
  | [] => none

/-- Exactly four decimal digits: `%Y` compiles to `\d\d\d\d`. -/
def parseYear4 : List Char → Option (Nat × List Char)
  | a :: b :: c :: d :: rest =>
    if a.isDigit ∧ b.isDigit ∧ c.isDigit ∧ d.isDigit then
      some ((((a.toNat - 48) * 10 + (b.toNat - 48)) * 10 + (c.toNat - 48)) * 10
        + (d.toNat - 48), rest)
    else none
  | _ => none

/-- One-or-more whitespace: `_strptime` replaces each whitespace run of
the format with `\s+`. -/
def parseWs : List Char → Option (List Char)
  | c :: rest => if isPyWs c then some (rest.dropWhile isPyWs) else none
  | [] => none

/-- The locale AM/PM directive `%p`, matched case-insensitively;
returns `true` for PM. -/
def parseAmPm : List Char → Option (Bool × List Char)
  | c1 :: c2 :: rest =>
    if (c1 = 'A' ∨ c1 = 'a') ∧ (c2 = 'M' ∨ c2 = 'm') then some (false, rest)
    else if (c1 = 'P' ∨ c1 = 'p') ∧ (c2 = 'M' ∨ c2 = 'm') then some (true, rest)
    else none
  | _ => none

/-- Gregorian month length, as validated by the `datetime` constructor. -/
def daysInMonth (y m : Nat) : Nat :=
  if m = 2 then (if y % 4 = 0 ∧ (y % 100 ≠ 0 ∨ y % 400 = 0) then 29 else 28)
  else if m = 4 ∨ m = 6 ∨ m = 9 ∨ m = 11 then 30 else 31

/-- 12-hour to 24-hour conversion done by `_strptime` for `%I` + `%p`. -/
def hour24 (hr12 : Nat) (pm : Bool) : Nat :=
  if pm then (if hr12 = 12 then 12 else hr12 + 12)
  else (if hr12 = 12 then 0 else hr12)

/-- `datetime.datetime.strptime(s, "%m/%d/%Y %I:%M:%S %p")`: the regex
match (whole string), the range constraints encoded in the directive
patterns, and the validation done by the `datetime` constructor
(year ≥ 1, day ≤ month length, second ≤ 59). -/
def strptimeAtx (s : String) : Option PyDateTime :=
  match parseNum2 s.data with
  | none => none
  | some (mo, l1) =>
    if 1 ≤ mo ∧ mo ≤ 12 then
      match l1 with
      | '/' :: l2 =>
        match parseNum2 l2 with
        | none => none
        | some (dy, l3) =>
          if 1 ≤ dy ∧ dy ≤ 31 then
            match l3 with
            | '/' :: l4 =>
              match parseYear4 l4 with
              | none => none
              | some (yr, l5) =>
                match parseWs l5 with
                | none => none
                | some l6 =>
                  match parseNum2 l6 with
                  | none => none
                  | some (hr12, l7) =>
                    if 1 ≤ hr12 ∧ hr12 ≤ 12 then
                      match l7 with
                      | ':' :: l8 =>
                        match parseNum2 l8 with
                        | none => none
                        | some (mi, l9) =>
                          if mi ≤ 59 then
                            match l9 with
                            | ':' :: l10 =>
                              match parseNum2 l10 with
                              | none => none
                              | some (sec, l11) =>
                                if sec ≤ 59 then
                                  match parseWs l11 with
                                  | none => none
                                  | some l12 =>
                                    match parseAmPm l12 with
                                    | none => none
                                    | some (pm, l13) =>
                                      if l13 = [] then
                                        if 1 ≤ yr ∧ dy ≤ daysInMonth yr mo then
                                          some { year := yr, month := mo, day := dy,
                                                 hour := hour24 hr12 pm,
                                                 minute := mi, second := sec }
                                        else none
                                      else none
                                else none
                            | _ => none
                          else none
                      | _ => none
                    else none
            | _ => none
          else none
      | _ => none
    else none

/-- `_document_to_index_name`: parse `doc["timestamp"]` with the fixed
format and build `f"atx311-{year}-{month:02d}"`.  A missing key raises
`KeyError`, a non-string value raises `TypeError` inside `strptime`,
and a mismatched string raises `ValueError`. -/
def documentToIndexName (doc : List (String × JValue)) : Except String String :=
  match doc.lookup "timestamp" with
  | none => Except.error "KeyError: timestamp"
  | some (JValue.jstr ts) =>
    match strptimeAtx ts with
    | none => Except.error "ValueError: time data does not match format"
    | some dt => Except.ok ("atx311-" ++ renderNat dt.year ++ "-" ++ pad2 dt.month)
  | some _ => Except.error "TypeError: strptime() argument 1 must be str"

/-! ### `json.dumps` (default options: `ensure_ascii=True`,
separators `", "` and `": "`) for the flat documents of the pipeline -/

/-- Lowercase hex digit character. -/
def hexDigitChar (d : Nat) : Char := Char.ofNat (if d < 10 then 48 + d else 87 + d)

/-- Four lowercase hex digits, as `'\x5cu{0:04x}'.format(n)` emits. -/
def hex4Chars (n : Nat) : List Char :=
  [hexDigitChar (n / 4096 % 16), hexDigitChar (n / 256 % 16),
   hexDigitChar (n / 16 % 16), hexDigitChar (n % 16)]

/-- Escape one character the way `json.encoder`'s ASCII escaper does:
quote and backslash get a backslash escape, the five shortcut control
characters get their two-character escapes, other characters below
0x20 and at or above 0x7f get `\uXXXX` (a surrogate pair above
0xFFFF), and printable ASCII passes through. -/
def escapeChar (c : Char) : List Char :=
  if c = '"' then ['\\', '"']
  else if c = '\\' then ['\\', '\\']
  else if c = '\x08' then ['\\', 'b']
  else if c = '\x09' then ['\\', 't']
  else if c = '\x0a' then ['\\', 'n']
  else if c = '\x0c' then ['\\', 'f']
  else if c = '\x0d' then ['\\', 'r']
  else if c.toNat < 0x20 then '\\' :: 'u' :: hex4Chars c.toNat
  else if c.toNat < 0x7f then [c]
  else if c.toNat < 0x10000 then '\\' :: 'u' :: hex4Chars c.toNat
  else
    ('\\' :: 'u' :: hex4Chars (0xd800 + (c.toNat - 0x10000) / 1024))
      ++ '\\' :: 'u' :: hex4Chars (0xdc00 + (c.toNat - 0x10000) % 1024)

/-- Escape a character list. -/
def escChars : List Char → List Char
  | [] => []
  | c :: cs => escapeChar c ++ escChars cs

/-- `json.dumps` of a string, as characters (with the quotes). -/
def dumpsStringChars (s : String) : List Char := '"' :: escChars s.data ++ ['"']

/-- `repr`/`json.dumps` of an int, as characters. -/
def intChars (i : Int) : List Char :=
  if i < 0 then '-' :: natChars i.natAbs else natChars i.toNat

/-- `json.dumps` of one JSON-safe value, as characters.  A float prints
as sign, integer part, dot, fractional digits (the digit-list model of
`repr` output). -/
def dumpsJValueChars : JValue → List Char
  | JValue.jnull => ['n', 'u', 'l', 'l']
  | JValue.jstr s => dumpsStringChars s
  | JValue.jint i => intChars i
  | JValue.jfloat neg ip fp =>
    (if neg then ['-'] else []) ++ natChars ip ++ '.' :: fp.map digitChar

/-- The members of a serialized object, `", "`-separated, each member
being `"key": value`. -/
def dumpsPairsChars : List (String × JValue) → List Char
  | [] => []
  | [(k, v)] => dumpsStringChars k ++ ':' :: ' ' :: dumpsJValueChars v
  | (k, v) :: rest =>
    dumpsStringChars k ++ ':' :: ' ' :: dumpsJValueChars v ++ ',' :: ' ' :: dumpsPairsChars rest

/-- `json.dumps(document)`: a flat object in insertion order. -/
def dumpsObj (pairs : List (String × JValue)) : String :=
  String.mk ('\x7b' :: dumpsPairsChars pairs ++ ['\x7d'])

/-- `json.dumps({"index": {"_index": index}})`, the bulk action line. -/
def actionLine (index : String) : String :=
  String.mk (('\x7b' :: "\"index\": ".data) ++ ('\x7b' :: "\"_index\": ".data)
    ++ dumpsStringChars index ++ ['\x7d', '\x7d'])

/-! ### Bulk loader (`_index_documents`, `_import`) and the HTTP trace -/

/-- A hydrated document: its field mapping, in insertion order. -/
abbrev Document : Type := List (String × JValue)

/-- `itertools.islice` batching loop of `_import`: repeatedly take a
chunk of `B` documents until the chunk comes back empty.  (With
`B = 0` the first chunk is empty and the loop stops at once.) -/
def chunkList {α : Type} (B : Nat) : List α → List (List α)
  | [] => []
  | x :: xs =>
    if _h : B = 0 then []
    else (x :: xs).take B :: chunkList B ((x :: xs).drop B)
  termination_by l => l.length
  decreasing_by
    simp only [List.length_drop, List.length_cons]
    omega

/-- The payload lines `_index_documents` writes into its buffer: for
each document an action line naming `_document_to_index_name(doc)`,
then the serialized document; a `strptime` failure propagates before
any line of a later document is produced. -/
def chunkPayload : List Document → Except String (List String)
  | [] => Except.ok []
  | d :: ds =>
    match documentToIndexName d with
    | Except.error e => Except.error e
    | Except.ok idx =>
      match chunkPayload ds with
      | Except.error e => Except.error e
      | Except.ok rest => Except.ok (actionLine idx :: dumpsObj d :: rest)

/-- The index name of a document, or `""` if it does not resolve (used
only to state payload contents; under the success hypotheses of the
theorems the default is never taken). -/
def indexNameOrEmpty (d : Document) : String :=
  match documentToIndexName d with
  | Except.ok s => s
  | Except.error _ => ""

/-- `requests.Response.raise_for_status`: raises iff 400 ≤ status < 600. -/
def isHttpError (status : Nat) : Bool := 400 ≤ status ∧ status < 600

/-- The template pattern list registered by `_create_index_template`. -/
def templatePatterns : List String := ["atx311-*"]

/-- `INDEX_MAPPINGS`' properties: every target name mapped to its
schema descriptor. -/
def indexProperties : List (String × List (String × String)) :=
  ROW_TO_FIELD.map (fun p => (p.2.new_name, p.2.es_format))

/-- The HTTP requests the script can issue. -/
inductive Request : Type
  | putTemplate : List String → List (String × List (String × String)) → Request
  | postBulk : List String → Request
  deriving DecidableEq

/-- The bulk-loading loop of `_import`: serialize a chunk (a
serialization error aborts before the POST), issue the POST, abort on
an error status.  `status k` is the HTTP status of the `k`-th bulk
request.  Returns the requests issued, in order, and the outcome. -/
def runChunks (status : Nat → Nat) :
    Nat → List (List Document) → List Request × Except String Unit
  | _, [] => ([], Except.ok ())
  | k, c :: cs =>
    match chunkPayload c with
    | Except.error e => ([], Except.error e)
    | Except.ok lines =>
      if isHttpError (status k) then ([Request.postBulk lines], Except.error "HTTPError")
      else
        let r := runChunks status (k + 1) cs
        (Request.postBulk lines :: r.1, r.2)

/-- `_import`: register the index template first (`raise_for_status`
aborts the run on an error status), then bulk-load the document
stream in chunks. -/
def importRun (tmplStatus : Nat) (status : Nat → Nat) (chunkSize : Nat)
    (docs : List Document) : List Request × Except String Unit :=
  if isHttpError tmplStatus then
    ([Request.putTemplate templatePatterns indexProperties], Except.error "HTTPError")
  else
    let r := runChunks status 0 (chunkList chunkSize docs)
    (Request.putTemplate templatePatterns indexProperties :: r.1, r.2)

/-! ### Elasticsearch wildcard pattern matching (for `index_patterns`) -/

/-- Wildcard match on character lists: `*` matches any (possibly
empty) sequence, every other character matches itself. -/
def wildcardMatchL : List Char → List Char → Bool
  | [], [] => true
  | [], _ :: _ => false
  | '*' :: ps, s =>
    wildcardMatchL ps s ||
      (match s with
       | [] => false
       | _ :: s2 => wildcardMatchL ('*' :: ps) s2)
  | _ :: _, [] => false
  | p :: ps, c :: s => p == c && wildcardMatchL ps s
  termination_by p s => (p.length, s.length)

/-- Wildcard match on strings. -/
def wildcardMatch (pat s : String) : Bool := wildcardMatchL pat.data s.data

/-! ### `json.loads` on the fragment the pipeline emits: one flat object
whose values are strings, integers, decimal floats or null -/

/-- JSON inter-token whitespace (`json.decoder` skips exactly these). -/
def isWsChar (c : Char) : Bool := c = ' ' ∨ c = '\t' ∨ c = '\n' ∨ c = '\r'

/-- Skip inter-token whitespace. -/
def skipWs (l : List Char) : List Char := l.dropWhile isWsChar

/-- Strict hex digit value (the C scanner used by `json.loads` accepts
exactly `0-9a-fA-F`). -/
def hexVal (c : Char) : Option Nat :=
  if '0' ≤ c ∧ c ≤ '9' then some (c.toNat - 48)
  else if 'a' ≤ c ∧ c ≤ 'f' then some (c.toNat - 87)
  else if 'A' ≤ c ∧ c ≤ 'F' then some (c.toNat - 55)
  else none

/-- Value of a `\uXXXX` escape. -/
def hex4 (a b c d : Char) : Option Nat :=
  match hexVal a, hexVal b, hexVal c, hexVal d with
  | some x, some y, some z, some w => some (((x * 16 + y) * 16 + z) * 16 + w)
  | _, _, _, _ => none

/-- The single-character JSON string escapes. -/
def unescapeChar (c : Char) : Option Char :=
  if c = '"' then some '"'
  else if c = '\\' then some '\\'
  else if c = '/' then some '/'
  else if c = 'b' then some '\x08'
  else if c = 'f' then some '\x0c'
  else if c = 'n' then some '\x0a'
  else if c = 'r' then some '\x0d'
  else if c = 't' then some '\x09'
  else none

/-- One step of the JSON string scanner after the opening quote:
either the closing quote (`(none, rest)`), or one decoded character
(`(some c, rest)`).  Raw control characters are rejected (strict
mode), escapes are decoded, surrogate pairs are recombined.  A lone
surrogate, which CPython would keep as an unpaired code unit, has no
Lean `Char` counterpart and is rejected. -/
def scanStep : List Char → Option (Option Char × List Char)
  | [] => none
  | c :: rest =>
    if c = '"' then some (none, rest)
    else if c = '\\' then
      match rest with
      | [] => none
      | e :: rest2 =>
        if e = 'u' then
          match rest2 with
          | h1 :: h2 :: h3 :: h4 :: rest3 =>
            match hex4 h1 h2 h3 h4 with
            | none => none
            | some n =>
              if 0xd800 ≤ n ∧ n ≤ 0xdbff then
                match rest3 with
                | b1 :: b2 :: g1 :: g2 :: g3 :: g4 :: rest4 =>
                  if b1 = '\\' ∧ b2 = 'u' then
                    match hex4 g1 g2 g3 g4 with
                    | none => none
                    | some msur =>
                      if 0xdc00 ≤ msur ∧ msur ≤ 0xdfff then
                        some (some (Char.ofNat
                          (0x10000 + (n - 0xd800) * 1024 + (msur - 0xdc00))), rest4)
                      else none
                  else none
                | _ => none
              else if 0xdc00 ≤ n ∧ n ≤ 0xdfff then none
              else some (some (Char.ofNat n), rest3)
          | _ => none
        else
          match unescapeChar e with
          | none => none
          | some uc => some (some uc, rest2)
    else if c.toNat < 0x20 then none
    else some (some c, rest)

theorem scanStep_length {l : List Char} {st : Option Char × List Char}
    (h : scanStep l = some st) : st.2.length < l.length := by
  match l with
  | [] => simp [scanStep] at h
  | c :: rest =>
    simp only [scanStep] at h
    repeat' split at h
    all_goals first
      | (cases h; simp only [List.length_cons]; simp; omega)
      | (cases h; simp only [List.length_cons]; omega)
      | (cases h; simp)
      | simp at h

/-- Scan a JSON string body after the opening quote, up to and past
the closing quote, returning the decoded characters and the rest. -/
def scanString (l : List Char) : Option (List Char × List Char) :=
  match h : scanStep l with
  | none => none
  | some (none, rest) => some ([], rest)
  | some (some c, rest) =>
    match scanString rest with
    | none => none
    | some (cs, r) => some (c :: cs, r)
  termination_by l.length
  decreasing_by exact scanStep_length h

/-- The integer-part digits of the JSON number grammar:
`0` alone, or a nonzero digit followed by a greedy digit run. -/
def parseIntDigits : List Char → Option (List Char × List Char)
  | [] => none
  | c :: rest =>
    if c = '0' then some ([c], rest)
    else if c.isDigit then some (c :: rest.takeWhile Char.isDigit, rest.dropWhile Char.isDigit)
    else none

/-- The fraction part of the JSON number grammar: a dot followed by at
least one digit; anything else (including a bare dot) is no fraction. -/
def parseFrac : List Char → Option (List Nat × List Char)
  | [] => none
  | c :: r2 =>
    if c = '.' then
      match r2.takeWhile Char.isDigit with
      | [] => none
      | fds => some (fds.map (fun c => c.toNat - 48), r2.dropWhile Char.isDigit)
    else none

/-- An unsigned JSON number: integer part, then an optional fraction
(a bare dot ends the number before the dot, exactly as the number
regex does).  Exponent forms never occur in the serialized documents
and are outside the modelled fragment. -/
def parseNumberCore (l : List Char) : Option (JValue × List Char) :=
  match parseIntDigits l with
  | none => none
  | some (ids, rest) =>
    match parseFrac rest with
    | some (fp, r3) => some (JValue.jfloat false (digitCharsVal ids) fp, r3)
    | none => some (JValue.jint (Int.ofNat (digitCharsVal ids)), rest)

/-- A JSON number with optional leading minus. -/
def parseNumber (l : List Char) : Option (JValue × List Char) :=
  match l with
  | [] => none
  | c :: rest =>
    if c = '-' then
      match parseNumberCore rest with
      | some (JValue.jint n, r) => some (JValue.jint (-n), r)
      | some (JValue.jfloat _ ip fp, r) => some (JValue.jfloat true ip fp, r)
      | _ => none
    else parseNumberCore (c :: rest)

/-- The tail of the `null` literal after its leading `n`. -/
def parseNull : List Char → Option (JValue × List Char)
  | 'u' :: 'l' :: 'l' :: r => some (JValue.jnull, r)
  | _ => none

/-- A JSON value of the fragment: string, `null`, or number. -/
def parseValue : List Char → Option (JValue × List Char)
  | [] => none
  | c :: rest =>
    if c = '"' then
      match scanString rest with
      | none => none
      | some (cs, r) => some (JValue.jstr (String.mk cs), r)
    else if c = 'n' then parseNull rest
    else parseNumber (c :: rest)

/-- One object member: `"key"`, optional whitespace, `:`, optional
whitespace, value. -/
def parseMember (l : List Char) : Option ((String × JValue) × List Char) :=
  match l with
  | c :: rest =>
    if c = '"' then
      match scanString rest with
      | none => none
      | some (kcs, r1) =>
        match skipWs r1 with
        | ':' :: r2 =>
          match parseValue (skipWs r2) with
          | none => none
          | some (v, r3) => some ((String.mk kcs, v), r3)
        | _ => none
    else none
  | [] => none

theorem skipWs_length (l : List Char) : (skipWs l).length ≤ l.length := by
  induction l with
  | nil => simp [skipWs]
  | cons c cs ih =>
    by_cases h : isWsChar c
    · simp only [skipWs, List.dropWhile, h]
      simp only [skipWs] at ih
      simp only [List.length_cons]
      omega
    · simp only [skipWs, List.dropWhile, Bool.eq_false_iff.mpr h]
      exact Nat.le_refl _

theorem scanString_length_aux :
    ∀ (n : Nat) (l : List Char), l.length ≤ n →
      ∀ cs r, scanString l = some (cs, r) → r.length < l.length := by
  intro n
  induction n with
  | zero =>
    intro l hle cs r h
    match l with
    | [] => rw [scanString] at h; simp [scanStep] at h
    | c :: rest => simp at hle
  | succ n ih =>
    intro l hle cs r h
    rw [scanString] at h
    split at h
    · exact absurd h (by simp)
    · rename_i rest heq
      cases h
      exact scanStep_length heq
    · rename_i c rest heq
      have hlen : rest.length < l.length := scanStep_length heq
      match hrec : scanString rest with
      | none => rw [hrec] at h; exact absurd h (by simp)
      | some (cs2, r2) =>
        rw [hrec] at h
        simp only [Option.some.injEq, Prod.mk.injEq] at h
        have hr : r2.length < rest.length := ih rest (by omega) cs2 r2 hrec
        have hr2 : r2 = r := h.2
        rw [hr2] at hr
        omega

theorem scanString_length {l cs r} (h : scanString l = some (cs, r)) :
    r.length < l.length :=
  scanString_length_aux l.length l (Nat.le_refl _) cs r h

theorem dropWhile_le_length (p : Char → Bool) (l : List Char) :
    (l.dropWhile p).length ≤ l.length := by
  induction l with
  | nil => simp
  | cons c cs ih =>
    by_cases h : p c
    · simp only [List.dropWhile, h]
      simp only [List.length_cons]
      omega
    · simp only [List.dropWhile, Bool.eq_false_iff.mpr h]
      exact Nat.le_refl _

theorem parseIntDigits_length {l ds r} (h : parseIntDigits l = some (ds, r)) :
    r.length < l.length := by
  match l with
  | [] => simp [parseIntDigits] at h
  | c :: rest =>
    simp only [parseIntDigits] at h
    split at h
    · cases h
      simp
    · split at h
      · cases h
        simp only [List.length_cons]
        exact Nat.lt_succ_of_le (dropWhile_le_length _ _)
      · exact absurd h (by simp)

theorem parseFrac_length {l fp r} (h : parseFrac l = some (fp, r)) :
    r.length < l.length := by
  match l with
  | [] => simp [parseFrac] at h
  | c :: r2 =>
    simp only [parseFrac] at h
    split at h
    · split at h
      · exact absurd h (by simp)
      · cases h
        simp only [List.length_cons]
        exact Nat.lt_succ_of_le (dropWhile_le_length _ _)
    · exact absurd h (by simp)

theorem parseNumberCore_length {l v r} (h : parseNumberCore l = some (v, r)) :
    r.length < l.length := by
  unfold parseNumberCore at h
  split at h
  · exact absurd h (by simp)
  · rename_i ids rest heq1
    have h1 := parseIntDigits_length heq1
    split at h
    · rename_i fp r3 heq2
      cases h
      have h2 := parseFrac_length heq2
      omega
    · cases h
      exact h1

theorem parseNumber_length {l v r} (h : parseNumber l = some (v, r)) :
    r.length < l.length := by
  match l with
  | [] => simp [parseNumber] at h
  | c :: rest =>
    simp only [parseNumber] at h
    split at h
    · split at h
      · rename_i n r2 heq
        cases h
        have := parseNumberCore_length heq
        simp only [List.length_cons]
        omega
      · rename_i b ip fp r2 heq
        cases h
        have := parseNumberCore_length heq
        simp only [List.length_cons]
        omega
      · exact absurd h (by simp)
    · exact parseNumberCore_length h

theorem parseNull_length {l v r} (h : parseNull l = some (v, r)) :
    r.length < l.length := by
  unfold parseNull at h
  split at h
  · cases h
    simp only [List.length_cons]
    omega
  · exact absurd h (by simp)

theorem parseValue_length {l v r} (h : parseValue l = some (v, r)) :
    r.length < l.length := by
  match l with
  | [] => simp [parseValue] at h
  | c :: rest =>
    simp only [parseValue] at h
    split at h
    · split at h
      · exact absurd h (by simp)
      · rename_i cs r2 heq
        cases h
        have := scanString_length heq
        simp only [List.length_cons]
        omega
    · split at h
      · have := parseNull_length h
        simp only [List.length_cons]
        omega
      · exact parseNumber_length h

theorem parseMember_length {l kv r} (h : parseMember l = some (kv, r)) :
    r.length < l.length := by
  match l with
  | [] => simp [parseMember] at h
  | c :: rest =>
    simp only [parseMember] at h
    split at h
    · split at h
      · exact absurd h (by simp)
      · rename_i kcs r1 heq1
        have h1 := scanString_length heq1
        have h2 := skipWs_length r1
        split at h
        · rename_i r2 heq2
          split at h
          · exact absurd h (by simp)
          · rename_i v r3 heq3
            cases h
            have h3 := parseValue_length heq3
            have h4 := skipWs_length r2
            have h5 : r2.length + 1 = (skipWs r1).length := by rw [heq2]; rfl
            simp only [List.length_cons]
            omega
        · exact absurd h (by simp)
    · exact absurd h (by simp)

/-- The member loop of the object decoder: after each member, a comma
continues the loop and a closing brace ends the object. -/
def parseMembers (l : List Char) : Option (List (String × JValue) × List Char) :=
  match h1 : parseMember l with
  | none => none
  | some (kv, rest) =>
    match h2 : skipWs rest with
    | [] => none
    | c :: r2 =>
      if c = ',' then
        match parseMembers (skipWs r2) with
        | none => none
        | some (ps, r3) => some (kv :: ps, r3)
      else if c = '\x7d' then some ([kv], r2)
      else none
  termination_by l.length
  decreasing_by
    have ha := parseMember_length h1
    have hb := skipWs_length rest
    have hc : r2.length + 1 = (skipWs rest).length := by rw [h2]; rfl
    have hd := skipWs_length r2
    omega

/-- The object decoder: `\x7b`, then either an immediately closing
`\x7d` or a member list. -/
def parseObjChars (l : List Char) : Option (List (String × JValue) × List Char) :=
  match l with
  | [] => none
  | c :: rest =>
    if c = '\x7b' then
      match skipWs rest with
      | [] => none
      | c2 :: r2 => if c2 = '\x7d' then some ([], r2) else parseMembers (c2 :: r2)
    else none

/-- `dict.__setitem__`: replace in place if the key is present, else
append. -/
def upsert : List (String × JValue) → String → JValue → List (String × JValue)
  | [], k, v => [(k, v)]
  | (k0, v0) :: rest, k, v =>
    if k0 = k then (k0, v) :: rest else (k0, v0) :: upsert rest k v

/-- Collapse parsed members into a dict, last value winning, first
insertion position kept (CPython dict semantics). -/
def collapseDict (ps : List (String × JValue)) : List (String × JValue) :=
  ps.foldl (fun acc kv => upsert acc kv.1 kv.2) []

/-- `json.loads` of one serialized document line: whitespace, the
object, whitespace, end of input. -/
def parseDocLine (s : String) : Option (List (String × JValue)) :=
  match parseObjChars (skipWs s.data) with
  | none => none
  | some (ps, rest) => if skipWs rest = [] then some (collapseDict ps) else none

/-! ### Lemmas about decimal digit rendering -/

theorem natDigitsAux_val :
    ∀ fuel n, n < 10 ^ fuel → digitsVal (natDigitsAux fuel n) = n := by
  intro fuel
  induction fuel with
  | zero =>
    intro n hn
    have : n = 0 := by simpa using hn
    subst this
    simp [natDigitsAux, digitsVal]
  | succ fuel ih =>
    intro n hn
    by_cases h : n < 10
    · simp [natDigitsAux, h, digitsVal]
    · have hdiv : n / 10 < 10 ^ fuel := by
        rw [Nat.div_lt_iff_lt_mul (by norm_num)]
        calc n < 10 ^ (fuel + 1) := hn
        _ = 10 ^ fuel * 10 := by rw [Nat.pow_succ]
      simp only [natDigitsAux, if_neg h, digitsVal, List.foldl_append, List.foldl_cons,
        List.foldl_nil]
      have := ih (n / 10) hdiv
      simp only [digitsVal] at this
      rw [this]
      omega

theorem natDigits_val (n : Nat) : digitsVal (natDigits n) = n :=
  natDigitsAux_val n n (Nat.lt_pow_self (by norm_num) n)

theorem natDigitsAux_lt10 :
    ∀ fuel n, n < 10 ^ fuel → ∀ d ∈ natDigitsAux fuel n, d < 10 := by
  intro fuel
  induction fuel with
  | zero =>
    intro n hn d hd
    have : n = 0 := by simpa using hn
    subst this
    simp [natDigitsAux] at hd
    omega
  | succ fuel ih =>
    intro n hn d hd
    by_cases h : n < 10
    · simp [natDigitsAux, h] at hd
      omega
    · have hdiv : n / 10 < 10 ^ fuel := by
        rw [Nat.div_lt_iff_lt_mul (by norm_num)]
        calc n < 10 ^ (fuel + 1) := hn
        _ = 10 ^ fuel * 10 := by rw [Nat.pow_succ]
      simp only [natDigitsAux, if_neg h, List.mem_append, List.mem_singleton] at hd
      rcases hd with hd | hd
      · exact ih (n / 10) hdiv d hd
      · subst hd
        omega

theorem natDigits_lt10 (n : Nat) : ∀ d ∈ natDigits n, d < 10 :=
  natDigitsAux_lt10 n n (Nat.lt_pow_self (by norm_num) n)

theorem natDigitsAux_pos_shape :
    ∀ fuel n, n < 10 ^ fuel → 1 ≤ n →
      ∃ d ds, natDigitsAux fuel n = d :: ds ∧ 1 ≤ d := by
  intro fuel
  induction fuel with
  | zero =>
    intro n hn hpos
    simp at hn
    omega
  | succ fuel ih =>
    intro n hn hpos
    by_cases h : n < 10
    · exact ⟨n, [], by simp [natDigitsAux, h], hpos⟩
    · have hdiv : n / 10 < 10 ^ fuel := by
        rw [Nat.div_lt_iff_lt_mul (by norm_num)]
        calc n < 10 ^ (fuel + 1) := hn
        _ = 10 ^ fuel * 10 := by rw [Nat.pow_succ]
      have hpos2 : 1 ≤ n / 10 := by
        rw [Nat.le_div_iff_mul_le (by norm_num)]
        omega
      obtain ⟨d, ds, hds, hd⟩ := ih (n / 10) hdiv hpos2
      exact ⟨d, ds ++ [n % 10], by simp [natDigitsAux, if_neg h, hds], hd⟩

theorem natDigits_pos_shape (n : Nat) (hpos : 1 ≤ n) :
    ∃ d ds, natDigits n = d :: ds ∧ 1 ≤ d :=
  natDigitsAux_pos_shape n n (Nat.lt_pow_self (by norm_num) n) hpos

theorem natDigitsAux_len_le :
    ∀ k fuel n, n < 10 ^ fuel → 1 ≤ n → n < 10 ^ k →
      (natDigitsAux fuel n).length ≤ k := by
  intro k
  induction k with
  | zero =>
    intro fuel n hfuel hpos hk
    simp at hk
    omega
  | succ k ih =>
    intro fuel n hfuel hpos hk
    match fuel with
    | 0 =>
      simp at hfuel
      omega
    | fuel + 1 =>
      by_cases h : n < 10
      · simp [natDigitsAux, h]
      · have hdiv : n / 10 < 10 ^ fuel := by
          rw [Nat.div_lt_iff_lt_mul (by norm_num)]
          calc n < 10 ^ (fuel + 1) := hfuel
          _ = 10 ^ fuel * 10 := by rw [Nat.pow_succ]
        have hdivk : n / 10 < 10 ^ k := by
          rw [Nat.div_lt_iff_lt_mul (by norm_num)]
          calc n < 10 ^ (k + 1) := hk
          _ = 10 ^ k * 10 := by rw [Nat.pow_succ]
        have hpos2 : 1 ≤ n / 10 := by
          rw [Nat.le_div_iff_mul_le (by norm_num)]
          omega
        have := ih fuel (n / 10) hdiv hpos2 hdivk
        simp only [natDigitsAux, if_neg h, List.length_append, List.length_singleton]
        omega

theorem natDigitsAux_len_ge :
    ∀ k fuel n, n < 10 ^ fuel → 10 ^ k ≤ n →
      k + 1 ≤ (natDigitsAux fuel n).length := by
  intro k
  induction k with
  | zero =>
    intro fuel n hfuel hk
    match fuel with
    | 0 => simp [natDigitsAux]
    | fuel + 1 =>
      by_cases h : n < 10
      · simp [natDigitsAux, h]
      · simp [natDigitsAux, if_neg h]
  | succ k ih =>
    intro fuel n hfuel hk
    have h10 : 10 ≤ n := by
      have : 10 ≤ 10 ^ (k + 1) := by
        calc (10 : Nat) = 10 ^ 1 := by norm_num
        _ ≤ 10 ^ (k + 1) := Nat.pow_le_pow_right (by norm_num) (by omega)
      omega
    match fuel with
    | 0 =>
      simp at hfuel
      omega
    | fuel + 1 =>
      have h : ¬ n < 10 := by omega
      have hdiv : n / 10 < 10 ^ fuel := by
        rw [Nat.div_lt_iff_lt_mul (by norm_num)]
        calc n < 10 ^ (fuel + 1) := hfuel
        _ = 10 ^ fuel * 10 := by rw [Nat.pow_succ]
      have hdivk : 10 ^ k ≤ n / 10 := by
        rw [Nat.le_div_iff_mul_le (by norm_num)]
        calc 10 ^ k * 10 = 10 ^ (k + 1) := by rw [Nat.pow_succ]
        _ ≤ n := hk
      have := ih fuel (n / 10) hdiv hdivk
      simp only [natDigitsAux, if_neg h, List.length_append, List.length_singleton]
      omega

theorem renderNat_length (n : Nat) : (renderNat n).length = (natDigits n).length := by
  simp [renderNat, natChars, String.length]

theorem renderNat_length_four {n : Nat} (h1 : 1000 ≤ n) (h2 : n ≤ 9999) :
    (renderNat n).length = 4 := by
  rw [renderNat_length]
  have hle := natDigitsAux_len_le 4 n n (Nat.lt_pow_self (by norm_num) n)
    (by omega) (by norm_num; omega)
  have hge := natDigitsAux_len_ge 3 n n (Nat.lt_pow_self (by norm_num) n)
    (by norm_num; omega)
  simp only [natDigits]
  omega

/-! ### Bounds extracted from a successful `strptime` -/

theorem isDigit_toNat {c : Char} (h : c.isDigit = true) :
    48 ≤ c.toNat ∧ c.toNat ≤ 57 := by
  simp only [Char.isDigit, Bool.and_eq_true, decide_eq_true_eq] at h
  obtain ⟨h1, h2⟩ := h
  exact ⟨h1, h2⟩

theorem parseYear4_le {l : List Char} {y : Nat} {r : List Char}
    (h : parseYear4 l = some (y, r)) : y ≤ 9999 := by
  match l with
  | [] => simp [parseYear4] at h
  | [a] => simp [parseYear4] at h
  | [a, b] => simp [parseYear4] at h
  | [a, b, c] => simp [parseYear4] at h
  | a :: b :: c :: d :: rest =>
    simp only [parseYear4] at h
    split at h
    · rename_i hd
      cases h
      obtain ⟨h1, h2, h3, h4⟩ := hd
      have b1 := isDigit_toNat h1
      have b2 := isDigit_toNat h2
      have b3 := isDigit_toNat h3
      have b4 := isDigit_toNat h4
      omega
    · exact absurd h (by simp)

/-- A successful `strptime` yields a year in 1..9999 (four digits with
year ≥ 1 enforced by the `datetime` constructor) and a month in 1..12. -/
theorem strptimeAtx_bounds {s : String} {dt : PyDateTime}
    (h : strptimeAtx s = some dt) :
    1 ≤ dt.year ∧ dt.year ≤ 9999 ∧ 1 ≤ dt.month ∧ dt.month ≤ 12 := by
  unfold strptimeAtx at h
  repeat' split at h
  all_goals cases h
  have hle := parseYear4_le (by assumption)
  dsimp only
  omega

theorem pad2_length_two {m : Nat} (h1 : 1 ≤ m) (h2 : m ≤ 12) : (pad2 m).length = 2 := by
  interval_cases m <;> decide

/-- Zero-or-more further characters after `*` at the end of a pattern
always match. -/
theorem wildcardMatchL_star (s : List Char) : wildcardMatchL ['*'] s = true := by
  induction s with
  | nil => simp [wildcardMatchL]
  | cons c s ih => simp [wildcardMatchL, ih]

theorem wildcardMatchL_atx (s : List Char) :
    wildcardMatchL ("atx311-*".data) ("atx311-".data ++ s) = true := by
  simp only [String.data]
  simp [wildcardMatchL, wildcardMatchL_star s]

/-! ### Claim theorems -/

/-- C1 counterexample: the claim predicts `coordinates("(30.1, 97.1)")
= "30.1,97.1"`, but the pattern `(-+\d+\.\d+)` requires at least one
minus sign on the longitude, so the unsigned pair does not match. -/
theorem coordinates_unsigned_counterexample :
    ¬ (coordinates "(30.1, 97.1)" = some "30.1,97.1") := by decide

/-- C1 (amended): the coordinate parser REJECTS a pair whose longitude
has no sign — `coordinates("(30.1, 97.1)")` returns null, because the
longitude group of the pattern requires one or more minus signs; with
at least one minus sign present the pair is accepted. -/
theorem coordinates_sign_requirement :
    coordinates "(30.1, 97.1)" = none
    ∧ coordinates "(30.1, -97.1)" = some "30.1,-97.1"
    ∧ coordinates "(30.1, --97.1)" = some "30.1,--97.1" := by decide

/-- C5: the documented coordinate examples hold, the `coordinates`
converter never raises (a pattern mismatch yields a null field
instead), and it is the only converter with local failure recovery:
the `int` and `float` converters raise on the same non-matching
input. -/
theorem coordinates_error_recovery :
    coordinates "(30.123456, -97.654321)" = some "30.123456,-97.654321"
    ∧ coordinates "invalid" = none
    ∧ (∀ s, (applyFormatter Formatter.fcoords s).isOk = true)
    ∧ (∀ s, coordinates s = none →
        applyFormatter Formatter.fcoords s = Except.ok JValue.jnull)
    ∧ (applyFormatter Formatter.fint "invalid").isOk = false
    ∧ (applyFormatter Formatter.ffloat "invalid").isOk = false := by
  refine ⟨by decide, by decide, ?_, ?_, by decide, by decide⟩
  · intro s
    simp only [applyFormatter]
    match h : coordinates s with
    | some c => rfl
    | none => rfl
  · intro s h
    simp only [applyFormatter]
    rw [h]

/-- C5 witness at a concrete non-matching input. -/
theorem coordinates_error_recovery_witness :
    applyFormatter Formatter.fcoords "invalid" = Except.ok JValue.jnull :=
  coordinates_error_recovery.2.2.2.1 "invalid" (by decide)

/-- C6: in every run the template-registration request is the first
request issued, and a provisioning failure (error status) leaves the
template request as the only request — no bulk request is ever
issued. -/
theorem provisioning_precedes_bulk (t : Nat) (st : Nat → Nat) (B : Nat)
    (docs : List Document) :
    (importRun t st B docs).1.head?
      = some (Request.putTemplate templatePatterns indexProperties)
    ∧ (isHttpError t = true →
        (importRun t st B docs).1
          = [Request.putTemplate templatePatterns indexProperties]) := by
  unfold importRun
  by_cases h : isHttpError t = true
  · rw [if_pos h]
    exact ⟨rfl, fun _ => rfl⟩
  · rw [if_neg h]
    exact ⟨rfl, fun hc => absurd hc h⟩

/-- C6 witness: with a failing provisioning status and a nonempty
document stream, the trace is the single template request. -/
theorem provisioning_precedes_bulk_witness :
    (importRun 500 (fun _ => 200) 250
        [[("timestamp", JValue.jstr "03/15/2021 02:30:00 PM")]]).1
      = [Request.putTemplate templatePatterns indexProperties] :=
  (provisioning_precedes_bulk 500 (fun _ => 200) 250
    [[("timestamp", JValue.jstr "03/15/2021 02:30:00 PM")]]).2 (by decide)

/-- C7: deriving the index name of a document with a missing
`timestamp` field, a non-string `timestamp`, or a timestamp that does
not match the fixed format, propagates an error and never returns an
index name. -/
theorem index_name_failure_spec (doc : Document) :
    (doc.lookup "timestamp" = none → ∃ e, documentToIndexName doc = Except.error e)
    ∧ (∀ ts, doc.lookup "timestamp" = some (JValue.jstr ts) → strptimeAtx ts = none →
        ∃ e, documentToIndexName doc = Except.error e)
    ∧ (doc.lookup "timestamp" = some JValue.jnull →
        ∃ e, documentToIndexName doc = Except.error e) := by
  refine ⟨?_, ?_, ?_⟩
  · intro h
    exact ⟨"KeyError: timestamp", by simp only [documentToIndexName, h]⟩
  · intro ts h1 h2
    exact ⟨"ValueError: time data does not match format",
      by simp only [documentToIndexName, h1, h2]⟩
  · intro h
    exact ⟨"TypeError: strptime() argument 1 must be str",
      by simp only [documentToIndexName, h]⟩

/-- C7 witness: the empty document has no timestamp and its index name
derivation fails. -/
theorem index_name_failure_spec_witness :
    ∃ e, documentToIndexName ([] : Document) = Except.error e :=
  (index_name_failure_spec []).1 (by decide)

/-- C4 counterexample: `"03/15/0021 02:30:00 PM"` parses under the
fixed format (`%Y` reads the four digits `0021` as year 21), and the
derived index name is `"atx311-21-03"`, whose year part is NOT four
digits — the claim would require `"atx311-0021-03"`. -/
theorem index_name_year_padding_counterexample :
    strptimeAtx "03/15/0021 02:30:00 PM"
      = some { year := 21, month := 3, day := 15, hour := 14, minute := 30, second := 0 }
    ∧ documentToIndexName [("timestamp", JValue.jstr "03/15/0021 02:30:00 PM")]
        = Except.ok "atx311-21-03"
    ∧ "atx311-21-03" ≠ "atx311-0021-03" := by decide

/-- C4 (amended): for every document whose timestamp parses, the index
name is the prefix, the year in decimal WITHOUT zero padding (four
digits exactly when the year is at least 1000, which holds for all
dataset timestamps), and the zero-padded two-digit month; in
particular `"03/15/2021 02:30:00 PM"` yields `"atx311-2021-03"`. -/
theorem index_name_format (doc : Document) (ts : String) (dt : PyDateTime)
    (h1 : doc.lookup "timestamp" = some (JValue.jstr ts))
    (h2 : strptimeAtx ts = some dt) :
    documentToIndexName doc
      = Except.ok ("atx311-" ++ renderNat dt.year ++ "-" ++ pad2 dt.month)
    ∧ (pad2 dt.month).length = 2
    ∧ (1000 ≤ dt.year → (renderNat dt.year).length = 4)
    ∧ documentToIndexName [("timestamp", JValue.jstr "03/15/2021 02:30:00 PM")]
        = Except.ok "atx311-2021-03" := by
  obtain ⟨hy1, hy2, hm1, hm2⟩ := strptimeAtx_bounds h2
  refine ⟨?_, pad2_length_two hm1 hm2, fun hge => renderNat_length_four hge hy2, by decide⟩
  simp only [documentToIndexName, h1, h2]

/-- C4 witness at the spec's concrete timestamp. -/
theorem index_name_format_witness :
    documentToIndexName [("timestamp", JValue.jstr "03/15/2021 02:30:00 PM")]
      = Except.ok ("atx311-" ++ renderNat 2021 ++ "-" ++ pad2 3) :=
  (index_name_format [("timestamp", JValue.jstr "03/15/2021 02:30:00 PM")]
    "03/15/2021 02:30:00 PM"
    { year := 2021, month := 3, day := 15, hour := 14, minute := 30, second := 0 }
    (by decide) (by decide)).1

/-- C10: every index name the loader can derive starts with the
literal prefix `atx311-`, and therefore matches the wildcard pattern
`atx311-*`, which is exactly the pattern list the provisioning step
registers as the template's `index_patterns`. -/
theorem index_name_matches_template (doc : Document) (name : String)
    (h : documentToIndexName doc = Except.ok name) :
    (∃ rest, name = "atx311-" ++ rest)
    ∧ wildcardMatch "atx311-*" name = true
    ∧ templatePatterns = ["atx311-*"] := by
  unfold documentToIndexName at h
  split at h
  · exact absurd h (by simp)
  · split at h
    · exact absurd h (by simp)
    · rename_i ts hts dt hdt
      cases h
      refine ⟨⟨renderNat dt.year ++ "-" ++ pad2 dt.month, ?_⟩, ?_, rfl⟩
      · simp only [String.append_assoc]
      · unfold wildcardMatch
        have hdata : ("atx311-" ++ renderNat dt.year ++ "-" ++ pad2 dt.month).data
            = "atx311-".data ++ (renderNat dt.year ++ "-" ++ pad2 dt.month).data := by
          simp only [String.append_assoc, String.data_append]
        rw [hdata]
        exact wildcardMatchL_atx _
  · exact absurd h (by simp)

/-- C10 witness at a concrete document. -/
theorem index_name_matches_template_witness :
    (∃ rest, "atx311-2021-03" = "atx311-" ++ rest)
    ∧ wildcardMatch "atx311-*" "atx311-2021-03" = true
    ∧ templatePatterns = ["atx311-*"] :=
  index_name_matches_template [("timestamp", JValue.jstr "03/15/2021 02:30:00 PM")]
    "atx311-2021-03" (by decide)

/-! ### Lemmas about the row hydrator -/

theorem lookup_eq_none_of_ne (k : String) :
    ∀ (l : List (String × JValue)), (∀ p ∈ l, p.1 ≠ k) → List.lookup k l = none := by
  intro l
  induction l with
  | nil => intro _; rfl
  | cons p t ih =>
    intro hall
    have hk : (k == p.1) = false :=
      beq_eq_false_iff_ne.mpr (Ne.symm (hall p (by simp)))
    simp only [List.lookup, hk]
    exact ih (fun q hq => hall q (by simp [hq]))

theorem hydrate_keys_sublist :
    ∀ (table : List (String × MappedField)) (row : String → Option String)
      (last0 : Option MappedField) (d : List (String × JValue)) (lm : Option MappedField),
      hydrateFields row table last0 = Except.ok (d, lm) →
      List.Sublist (d.map Prod.fst) (table.map (fun p => p.2.new_name)) := by
  intro table
  induction table with
  | nil =>
    intro row last0 d lm h
    simp only [hydrateFields] at h
    cases h
    simp
  | cons p rest ih =>
    intro row last0 d lm h
    obtain ⟨col, m⟩ := p
    simp only [hydrateFields] at h
    cases hrc : row col with
    | none =>
      simp only [hrc] at h
      exact List.Sublist.cons _ (ih row (some m) d lm h)
    | some raw =>
      simp only [hrc] at h
      by_cases hr : raw = ""
      · rw [if_pos hr] at h
        cases hrec : hydrateFields row rest (some m) with
        | error e => simp only [hrec] at h; exact absurd h (by simp)
        | ok pr =>
          obtain ⟨tail, last⟩ := pr
          simp only [hrec] at h
          cases h
          simpa using List.Sublist.cons₂ m.new_name (ih row (some m) tail lm hrec)
      · rw [if_neg hr] at h
        cases haf : applyFormatter m.row_formatter raw with
        | error e => simp only [haf] at h; exact absurd h (by simp)
        | ok v =>
          simp only [haf] at h
          cases hrec : hydrateFields row rest (some m) with
          | error e => simp only [hrec] at h; exact absurd h (by simp)
          | ok pr =>
            obtain ⟨tail, last⟩ := pr
            simp only [hrec] at h
            cases h
            simpa using List.Sublist.cons₂ m.new_name (ih row (some m) tail lm hrec)

theorem hydrate_last :
    ∀ (table : List (String × MappedField)) (row : String → Option String)
      (last0 : Option MappedField) (d : List (String × JValue)) (lm : Option MappedField),
      hydrateFields row table last0 = Except.ok (d, lm) →
      lm = table.foldl (fun _ p => some p.2) last0 := by
  intro table
  induction table with
  | nil =>
    intro row last0 d lm h
    simp only [hydrateFields] at h
    cases h
    rfl
  | cons p rest ih =>
    intro row last0 d lm h
    obtain ⟨col, m⟩ := p
    simp only [hydrateFields] at h
    cases hrc : row col with
    | none =>
      simp only [hrc] at h
      exact ih row (some m) d lm h
    | some raw =>
      simp only [hrc] at h
      by_cases hr : raw = ""
      · rw [if_pos hr] at h
        cases hrec : hydrateFields row rest (some m) with
        | error e => simp only [hrec] at h; exact absurd h (by simp)
        | ok pr =>
          obtain ⟨tail, last⟩ := pr
          simp only [hrec] at h
          cases h
          exact ih row (some m) tail lm hrec
      · rw [if_neg hr] at h
        cases haf : applyFormatter m.row_formatter raw with
        | error e => simp only [haf] at h; exact absurd h (by simp)
        | ok v =>
          simp only [haf] at h
          cases hrec : hydrateFields row rest (some m) with
          | error e => simp only [hrec] at h; exact absurd h (by simp)
          | ok pr =>
            obtain ⟨tail, last⟩ := pr
            simp only [hrec] at h
            cases h
            exact ih row (some m) tail lm hrec

theorem hydrate_lookup :
    ∀ (table : List (String × MappedField)) (row : String → Option String)
      (last0 : Option MappedField) (d : List (String × JValue)) (lm : Option MappedField),
      (table.map (fun p => p.2.new_name)).Pairwise (fun a b => a ≠ b) →
      hydrateFields row table last0 = Except.ok (d, lm) →
      ∀ col m, (col, m) ∈ table →
        ((row col = none → List.lookup m.new_name d = none)
         ∧ (row col = some "" → List.lookup m.new_name d = some JValue.jnull)
         ∧ (∀ raw, row col = some raw → raw ≠ "" →
             ∃ v, applyFormatter m.row_formatter raw = Except.ok v
               ∧ List.lookup m.new_name d = some v)) := by
  intro table
  induction table with
  | nil =>
    intro row last0 d lm hpw h col m hmem
    simp at hmem
  | cons p rest ih =>
    intro row last0 d lm hpw h col m hmem
    obtain ⟨col0, m0⟩ := p
    simp only [List.map_cons, List.pairwise_cons] at hpw
    obtain ⟨hhead, htail⟩ := hpw
    simp only [hydrateFields] at h
    rcases List.mem_cons.mp hmem with hm | hm
    · -- the target entry is the head entry
      cases hm
      cases hrc : row col with
      | none =>
        simp only [hrc] at h
        refine ⟨fun _ => ?_, fun hc => absurd hc (by simp [hrc]),
          fun raw hc => absurd hc (by simp [hrc])⟩
        have hsub := hydrate_keys_sublist rest row (some m) d lm h
        apply lookup_eq_none_of_ne
        intro q hq
        have : q.1 ∈ rest.map (fun p => p.2.new_name) :=
          hsub.subset (List.mem_map_of_mem _ hq)
        obtain ⟨r, hr, hrn⟩ := List.mem_map.mp this
        rw [← hrn]
        exact Ne.symm (hhead _ (List.mem_map_of_mem _ hr))
      | some raw =>
        simp only [hrc] at h
        by_cases hr : raw = ""
        · subst hr
          rw [if_pos rfl] at h
          cases hrec : hydrateFields row rest (some m) with
          | error e => simp only [hrec] at h; exact absurd h (by simp)
          | ok pr =>
            obtain ⟨tail, last⟩ := pr
            simp only [hrec] at h
            cases h
            refine ⟨?_, ?_, ?_⟩
            · intro hc
              cases hc
            · intro _
              simp [List.lookup]
            · intro raw2 hc hne
              cases hc
              exact absurd rfl hne
        · rw [if_neg hr] at h
          cases haf : applyFormatter m.row_formatter raw with
          | error e => simp only [haf] at h; exact absurd h (by simp)
          | ok v =>
            simp only [haf] at h
            cases hrec : hydrateFields row rest (some m) with
            | error e => simp only [hrec] at h; exact absurd h (by simp)
            | ok pr =>
              obtain ⟨tail, last⟩ := pr
              simp only [hrec] at h
              cases h
              refine ⟨?_, ?_, ?_⟩
              · intro hc
                cases hc
              · intro hc
                cases hc
                exact absurd rfl hr
              · intro raw2 hc hne
                cases hc
                exact ⟨v, haf, by simp [List.lookup]⟩
    · -- the target entry is in the tail
      have hmn : m0.new_name ≠ m.new_name :=
        hhead _ (List.mem_map_of_mem _ hm)
      have hbeq : (m.new_name == m0.new_name) = false :=
        beq_eq_false_iff_ne.mpr (Ne.symm hmn)
      cases hrc : row col0 with
      | none =>
        simp only [hrc] at h
        exact ih row (some m0) d lm htail h col m hm
      | some raw =>
        simp only [hrc] at h
        by_cases hr : raw = ""
        · rw [if_pos hr] at h
          cases hrec : hydrateFields row rest (some m0) with
          | error e => simp only [hrec] at h; exact absurd h (by simp)
          | ok pr =>
            obtain ⟨tail, last⟩ := pr
            simp only [hrec] at h
            cases h
            have hrec2 := ih row (some m0) tail lm htail hrec col m hm
            simpa only [List.lookup, hbeq] using hrec2
        · rw [if_neg hr] at h
          cases haf : applyFormatter m0.row_formatter raw with
          | error e => simp only [haf] at h; exact absurd h (by simp)
          | ok v =>
            simp only [haf] at h
            cases hrec : hydrateFields row rest (some m0) with
            | error e => simp only [hrec] at h; exact absurd h (by simp)
            | ok pr =>
              obtain ⟨tail, last⟩ := pr
              simp only [hrec] at h
              cases h
              have hrec2 := ih row (some m0) tail lm htail hrec col m hm
              simpa only [List.lookup, hbeq] using hrec2

/-- The target names of the mapping table are pairwise distinct. -/
theorem rowToField_names_pairwise :
    (ROW_TO_FIELD.map (fun p => p.2.new_name)).Pairwise (fun a b => a ≠ b) := by
  decide

/-- C2: for every raw row and every entry of the mapping table, when
hydration succeeds: a column present with a truthy (non-empty) value
maps the target name to the converted value, a column present with an
empty value maps the target name to null, and an absent column leaves
the target name out of the document. -/
theorem hydration_field_spec (row : String → Option String)
    (res : HydratedDocumentResponse) (col : String) (m : MappedField)
    (hrow : documentFromRow row = Except.ok res)
    (hmem : (col, m) ∈ ROW_TO_FIELD) :
    (row col = none → List.lookup m.new_name res.document = none)
    ∧ (row col = some "" → List.lookup m.new_name res.document = some JValue.jnull)
    ∧ (∀ raw, row col = some raw → raw ≠ "" →
        ∃ v, applyFormatter m.row_formatter raw = Except.ok v
          ∧ List.lookup m.new_name res.document = some v) := by
  unfold documentFromRow at hrow
  split at hrow
  · exact absurd hrow (by simp)
  · exact absurd hrow (by simp)
  · rename_i d m0 heq
    cases hrow
    exact hydrate_lookup ROW_TO_FIELD row none d (some m0)
      rowToField_names_pairwise heq col m hmem

/-- A small concrete row: `SR Status` present but empty, `Council
District` present with `"3"`, everything else absent. -/
def witnessRow : String → Option String := fun c =>
  if c = "SR Status" then some ""
  else if c = "Council District" then some "3"
  else none

/-- The document hydrated from `witnessRow`. -/
def witnessDoc : List (String × JValue) :=
  [("sr_req_status", JValue.jnull), ("sr_req_council_district_number", JValue.jint 3)]

/-- The `(Latitude.Longitude)` entry, the last entry of the mapping
table. -/
def coordinatesField : MappedField :=
  { new_name := "sr_req_coordinates", es_format := [("type", "geo_point")],
    row_formatter := Formatter.fcoords }

/-- C2 witness: hydrating `witnessRow` maps the empty `SR Status` cell
to a null target field. -/
theorem hydration_field_spec_witness :
    List.lookup "sr_req_status" witnessDoc = some JValue.jnull :=
  (hydration_field_spec witnessRow
    { field_mapping := coordinatesField, document := witnessDoc }
    "SR Status"
    { new_name := "sr_req_status", es_format := [("type", "keyword")],
      row_formatter := Formatter.fstr }
    (by decide) (by decide)).2.1 (by decide)

/-- C9: whatever the row contains, the `field_mapping` component of a
successful `_document_from_row` call is the mapping-table entry for
the LAST source column, `(Latitude.Longitude)` — the Python `mapping`
loop variable leaks out of the loop; only the `document` component
depends on the row. -/
theorem field_mapping_last_entry (row : String → Option String)
    (res : HydratedDocumentResponse)
    (h : documentFromRow row = Except.ok res) :
    res.field_mapping
      = { new_name := "sr_req_coordinates", es_format := [("type", "geo_point")],
          row_formatter := Formatter.fcoords } := by
  unfold documentFromRow at h
  split at h
  · exact absurd h (by simp)
  · exact absurd h (by simp)
  · rename_i d m0 heq
    cases h
    have hl := hydrate_last ROW_TO_FIELD row none d (some m0) heq
    have hfold : ROW_TO_FIELD.foldl (fun _ p => some p.2) none
        = some { new_name := "sr_req_coordinates", es_format := [("type", "geo_point")],
                 row_formatter := Formatter.fcoords } := rfl
    rw [hfold] at hl
    cases hl
    rfl

/-- C9 witness at `witnessRow`: the returned field mapping is the
coordinates entry even though the row has no coordinate column. -/
theorem field_mapping_last_entry_witness :
    ({ field_mapping := coordinatesField, document := witnessDoc }
        : HydratedDocumentResponse).field_mapping
      = { new_name := "sr_req_coordinates", es_format := [("type", "geo_point")],
          row_formatter := Formatter.fcoords } :=
  field_mapping_last_entry witnessRow
    { field_mapping := coordinatesField, document := witnessDoc } (by decide)

/-! ### Batching lemmas -/

theorem ceil_div_step (B m : Nat) (hB : 0 < B) (hm : 1 ≤ m) :
    (m - B + B - 1) / B + 1 = (m + B - 1) / B := by
  by_cases hcase : m ≤ B
  · have h0 : m - B = 0 := by omega
    have e1 : 0 + B - 1 = B - 1 := by omega
    have e2 : m + B - 1 = (m - 1) + B := by omega
    rw [h0, e1, e2, Nat.div_eq_of_lt (by omega), Nat.add_div_right _ hB,
      Nat.div_eq_of_lt (by omega)]
  · have e1 : m - B + B - 1 = (m - 1 - B) + B := by omega
    have e2 : m + B - 1 = (m - 1) + B := by omega
    rw [e1, e2, Nat.add_div_right _ hB, Nat.add_div_right _ hB]
    have e3 : m - 1 = (m - 1 - B) + B := by omega
    conv_rhs => rw [e3]
    rw [Nat.add_div_right _ hB]

theorem chunkList_length_aux {α : Type} (B : Nat) (hB : 0 < B) :
    ∀ (n : Nat) (l : List α), l.length ≤ n →
      (chunkList B l).length = (l.length + B - 1) / B := by
  intro n
  induction n with
  | zero =>
    intro l hle
    match l with
    | [] =>
      have h0 : chunkList B ([] : List α) = [] := by simp [chunkList]
      have h1 : (List.length ([] : List α) + B - 1) / B = 0 :=
        Nat.div_eq_of_lt (by simp only [List.length_nil]; omega)
      rw [h0, h1]
      rfl
    | x :: xs => simp at hle
  | succ n ih =>
    intro l hle
    match l with
    | [] =>
      have h0 : chunkList B ([] : List α) = [] := by simp [chunkList]
      have h1 : (List.length ([] : List α) + B - 1) / B = 0 :=
        Nat.div_eq_of_lt (by simp only [List.length_nil]; omega)
      rw [h0, h1]
      rfl
    | x :: xs =>
      simp only [chunkList, dif_neg (Nat.pos_iff_ne_zero.mp hB)]
      have hdlen : ((x :: xs).drop B).length = (x :: xs).length - B := by
        simp
      have hdle : ((x :: xs).drop B).length ≤ n := by
        simp only [hdlen, List.length_cons]
        simp only [List.length_cons] at hle
        omega
      have hrec := ih ((x :: xs).drop B) hdle
      simp only [List.length_cons, hrec, hdlen]
      exact ceil_div_step B (xs.length + 1) hB (by omega)

theorem chunkList_length {α : Type} (B : Nat) (hB : 0 < B) (l : List α) :
    (chunkList B l).length = (l.length + B - 1) / B :=
  chunkList_length_aux B hB l.length l (Nat.le_refl _)

theorem chunkList_mem_length_aux {α : Type} (B : Nat) :
    ∀ (n : Nat) (l : List α), l.length ≤ n →
      ∀ c ∈ chunkList B l, c.length ≤ B := by
  intro n
  induction n with
  | zero =>
    intro l hle c hc
    match l with
    | [] => simp [chunkList] at hc
    | x :: xs => simp at hle
  | succ n ih =>
    intro l hle c hc
    match l with
    | [] => simp [chunkList] at hc
    | x :: xs =>
      by_cases hB : B = 0
      · simp [chunkList, hB] at hc
      · simp only [chunkList, dif_neg hB, List.mem_cons] at hc
        rcases hc with hc | hc
        · subst hc
          simp only [List.length_take]
          omega
        · have hdle : ((x :: xs).drop B).length ≤ n := by
            simp only [List.length_drop, List.length_cons]
            simp only [List.length_cons] at hle
            omega
          exact ih ((x :: xs).drop B) hdle c hc

theorem chunkList_mem_length {α : Type} (B : Nat) (l : List α) :
    ∀ c ∈ chunkList B l, c.length ≤ B :=
  chunkList_mem_length_aux B l.length l (Nat.le_refl _)

theorem chunkList_mem_mem_aux {α : Type} (B : Nat) :
    ∀ (n : Nat) (l : List α), l.length ≤ n →
      ∀ c ∈ chunkList B l, ∀ x ∈ c, x ∈ l := by
  intro n
  induction n with
  | zero =>
    intro l hle c hc x hx
    match l with
    | [] => simp [chunkList] at hc
    | y :: ys => simp at hle
  | succ n ih =>
    intro l hle c hc x hx
    match l with
    | [] => simp [chunkList] at hc
    | y :: ys =>
      by_cases hB : B = 0
      · simp [chunkList, hB] at hc
      · simp only [chunkList, dif_neg hB, List.mem_cons] at hc
        rcases hc with hc | hc
        · subst hc
          exact List.take_subset _ _ hx
        · have hdle : ((y :: ys).drop B).length ≤ n := by
            simp only [List.length_drop, List.length_cons]
            simp only [List.length_cons] at hle
            omega
          exact List.drop_subset _ _ (ih ((y :: ys).drop B) hdle c hc x hx)

theorem chunkList_mem_mem {α : Type} (B : Nat) (l : List α) :
    ∀ c ∈ chunkList B l, ∀ x ∈ c, x ∈ l :=
  chunkList_mem_mem_aux B l.length l (Nat.le_refl _)

theorem chunkList_getLast_aux {α : Type} (B : Nat) (hB : 0 < B) :
    ∀ (n : Nat) (l : List α), l.length ≤ n → l.length % B ≠ 0 →
      ∃ c, (chunkList B l).getLast? = some c ∧ c.length = l.length % B := by
  intro n
  induction n with
  | zero =>
    intro l hle hmod
    match l with
    | [] => simp at hmod
    | x :: xs => simp at hle
  | succ n ih =>
    intro l hle hmod
    match l with
    | [] => simp at hmod
    | x :: xs =>
      simp only [chunkList, dif_neg (Nat.pos_iff_ne_zero.mp hB)]
      by_cases hcase : (x :: xs).length ≤ B
      · -- single chunk
        have hdrop : (x :: xs).drop B = [] := by
          apply List.drop_eq_nil_of_le
          exact hcase
        rw [hdrop]
        refine ⟨(x :: xs).take B, by simp [chunkList], ?_⟩
        have hlt : (x :: xs).length < B ∨ (x :: xs).length = B := by omega
        rcases hlt with hlt | heq
        · rw [Nat.mod_eq_of_lt hlt]
          simp only [List.length_take]
          omega
        · rw [heq] at hmod
          simp at hmod
      · have hdle : ((x :: xs).drop B).length ≤ n := by
          simp only [List.length_drop, List.length_cons]
          simp only [List.length_cons] at hle
          omega
        have hdmod : ((x :: xs).drop B).length % B ≠ 0 := by
          simp only [List.length_drop]
          have : ((x :: xs).length - B) % B = (x :: xs).length % B := by
            conv_rhs => rw [show (x :: xs).length = ((x :: xs).length - B) + B by omega]
            rw [Nat.add_mod_right]
          rw [this]
          exact hmod
        obtain ⟨c, hc1, hc2⟩ := ih ((x :: xs).drop B) hdle hdmod
        refine ⟨c, ?_, ?_⟩
        · rw [List.getLast?_cons]
          cases hck : chunkList B ((x :: xs).drop B) with
          | nil => rw [hck] at hc1; simp at hc1
          | cons c0 cs =>
            rw [hck] at hc1
            simp only [List.getLast?_cons] at hc1 ⊢
            exact hc1
        · rw [hc2]
          simp only [List.length_drop]
          conv_rhs => rw [show (x :: xs).length = ((x :: xs).length - B) + B by omega]
          rw [Nat.add_mod_right]

theorem chunkList_getLast {α : Type} (B : Nat) (hB : 0 < B) (l : List α)
    (hmod : l.length % B ≠ 0) :
    ∃ c, (chunkList B l).getLast? = some c ∧ c.length = l.length % B :=
  chunkList_getLast_aux B hB l.length l (Nat.le_refl _) hmod

/-- The lines `_index_documents` writes for a chunk: an action line and
a document line, per document, in order. -/
def payloadOf : List Document → List String
  | [] => []
  | d :: ds => actionLine (indexNameOrEmpty d) :: dumpsObj d :: payloadOf ds

theorem payloadOf_length (c : List Document) : (payloadOf c).length = 2 * c.length := by
  induction c with
  | nil => rfl
  | cons d ds ih =>
    simp only [payloadOf, List.length_cons, ih]
    omega

theorem chunkPayload_ok (c : List Document)
    (hok : ∀ d ∈ c, (documentToIndexName d).isOk = true) :
    chunkPayload c = Except.ok (payloadOf c) := by
  induction c with
  | nil => rfl
  | cons d ds ih =>
    have hd := hok d (by simp)
    simp only [chunkPayload]
    cases hidx : documentToIndexName d with
    | error e => rw [hidx] at hd; simp [Except.isOk, Except.toBool] at hd
    | ok idx =>
      rw [ih (fun d2 hd2 => hok d2 (by simp [hd2]))]
      have hidx2 : indexNameOrEmpty d = idx := by
        unfold indexNameOrEmpty
        rw [hidx]
      simp only [payloadOf, hidx2]

theorem runChunks_all_ok (status : Nat → Nat)
    (hst : ∀ k, isHttpError (status k) = false) :
    ∀ (chunks : List (List Document)) (k : Nat),
      (∀ c ∈ chunks, ∀ d ∈ c, (documentToIndexName d).isOk = true) →
      (runChunks status k chunks).1
        = chunks.map (fun c => Request.postBulk (payloadOf c)) := by
  intro chunks
  induction chunks with
  | nil => intro k _; rfl
  | cons c cs ih =>
    intro k hok
    simp only [runChunks]
    rw [chunkPayload_ok c (hok c (by simp))]
    simp only [hst k, Bool.false_eq_true, if_false]
    rw [ih (k + 1) (fun c2 hc2 => hok c2 (by simp [hc2]))]
    simp

/-- C3: with batch size `B` (250 by default), the loader makes exactly
`ceil(N / B)` chunks, each chunk has at most `B` documents and its
bulk payload is two lines per document (the action line naming the
target index, then the serialized document); when `N mod B` is nonzero
the final chunk has exactly `N mod B` documents; under success
statuses the issued requests are the template request followed by one
bulk request per chunk. -/
theorem bulk_batching_spec (docs : List Document) (B : Nat) (hB : 0 < B)
    (hok : ∀ d ∈ docs, (documentToIndexName d).isOk = true) :
    (chunkList B docs).length = (docs.length + B - 1) / B
    ∧ (∀ c ∈ chunkList B docs, c.length ≤ B
        ∧ chunkPayload c = Except.ok (payloadOf c)
        ∧ (payloadOf c).length = 2 * c.length)
    ∧ (docs.length % B ≠ 0 →
        ∃ c, (chunkList B docs).getLast? = some c ∧ c.length = docs.length % B)
    ∧ (∀ t st, isHttpError t = false → (∀ k, isHttpError (st k) = false) →
        (importRun t st B docs).1
          = Request.putTemplate templatePatterns indexProperties
            :: (chunkList B docs).map (fun c => Request.postBulk (payloadOf c))) := by
  refine ⟨chunkList_length B hB docs, ?_, chunkList_getLast B hB docs, ?_⟩
  · intro c hc
    exact ⟨chunkList_mem_length B docs c hc,
      chunkPayload_ok c (fun d hd => hok d (chunkList_mem_mem B docs c hc d hd)),
      payloadOf_length c⟩
  · intro t st ht hst
    unfold importRun
    rw [if_neg (by simp [ht])]
    dsimp only
    rw [runChunks_all_ok st hst (chunkList B docs) 0
      (fun c hc d hd => hok d (chunkList_mem_mem B docs c hc d hd))]

/-- C3 witness: one document with batch size 250 gives a single chunk
of one document. -/
theorem bulk_batching_spec_witness :
    (chunkList 250 [[(("timestamp" : String),
        JValue.jstr "03/15/2021 02:30:00 PM")]]).length = (1 + 250 - 1) / 250 :=
  (bulk_batching_spec [[(("timestamp" : String), JValue.jstr "03/15/2021 02:30:00 PM")]]
    250 (by decide) (by decide)).1

/-! ### Serialize/parse roundtrip: characters -/

theorem hexVal_hexDigitChar {d : Nat} (h : d < 16) : hexVal (hexDigitChar d) = some d := by
  interval_cases d <;> decide

theorem hex4_hex4Chars {n : Nat} (h : n < 0x10000) :
    hex4 (hexDigitChar (n / 4096 % 16)) (hexDigitChar (n / 256 % 16))
      (hexDigitChar (n / 16 % 16)) (hexDigitChar (n % 16)) = some n := by
  unfold hex4
  rw [hexVal_hexDigitChar (by omega), hexVal_hexDigitChar (by omega),
    hexVal_hexDigitChar (by omega), hexVal_hexDigitChar (by omega)]
  show some ((((n / 4096 % 16) * 16 + n / 256 % 16) * 16 + n / 16 % 16) * 16 + n % 16)
    = some n
  exact congrArg some (by omega)

theorem scanStep_u (a b cc d : Char) (n : Nat) (w : List Char)
    (hhex : hex4 a b cc d = some n) (hn : n < 0xd800) :
    scanStep ('\\' :: 'u' :: a :: b :: cc :: d :: w) = some (some (Char.ofNat n), w) := by
  simp [scanStep, hhex, show ¬(55296 ≤ n) from by omega,
    show ¬(56320 ≤ n) from by omega]

theorem scanStep_u_pair (a b cc d e f g hh : Char) (n m : Nat) (w : List Char)
    (hhex1 : hex4 a b cc d = some n) (hhex2 : hex4 e f g hh = some m)
    (hn1 : 55296 ≤ n) (hn2 : n ≤ 56319) (hm1 : 56320 ≤ m) (hm2 : m ≤ 57343) :
    scanStep ('\\' :: 'u' :: a :: b :: cc :: d :: '\\' :: 'u' :: e :: f :: g :: hh :: w)
      = some (some (Char.ofNat (0x10000 + (n - 0xd800) * 1024 + (m - 0xdc00))), w) := by
  simp [scanStep, hhex1, hhex2, hn1, hn2, hm1, hm2]

theorem scanStep_escapeChar (c : Char) (w : List Char) :
    scanStep (escapeChar c ++ w) = some (some c, w) := by
  by_cases h1 : c = '"'
  · subst h1; simp [escapeChar, scanStep, unescapeChar]
  by_cases h2 : c = '\\'
  · subst h2; simp [escapeChar, scanStep, unescapeChar]
  by_cases h3 : c = '\x08'
  · subst h3; simp [escapeChar, scanStep, unescapeChar]
  by_cases h4 : c = '\x09'
  · subst h4; simp [escapeChar, scanStep, unescapeChar]
  by_cases h5 : c = '\x0a'
  · subst h5; simp [escapeChar, scanStep, unescapeChar]
  by_cases h6 : c = '\x0c'
  · subst h6; simp [escapeChar, scanStep, unescapeChar]
  by_cases h7 : c = '\x0d'
  · subst h7; simp [escapeChar, scanStep, unescapeChar]
  by_cases h8 : c.toNat < 0x20
  · unfold escapeChar
    rw [if_neg h1, if_neg h2, if_neg h3, if_neg h4, if_neg h5, if_neg h6, if_neg h7,
      if_pos h8]
    simp only [hex4Chars, List.cons_append, List.nil_append]
    rw [scanStep_u _ _ _ _ c.toNat w (hex4_hex4Chars (by omega)) (by omega),
      Char.ofNat_toNat]
  by_cases h9 : c.toNat < 0x7f
  · unfold escapeChar
    rw [if_neg h1, if_neg h2, if_neg h3, if_neg h4, if_neg h5, if_neg h6, if_neg h7,
      if_neg h8, if_pos h9]
    simp only [List.cons_append, List.nil_append]
    simp only [scanStep, if_neg h1, if_neg h2, if_neg (by omega : ¬ c.toNat < 0x20)]
  by_cases h10 : c.toNat < 0x10000
  · have hval : c.toNat < 0xd800 ∨ (0xdfff < c.toNat ∧ c.toNat < 0x110000) := c.valid
    have hns : c.toNat < 0xd800 ∨ 0xdfff < c.toNat := by omega
    unfold escapeChar
    rw [if_neg h1, if_neg h2, if_neg h3, if_neg h4, if_neg h5, if_neg h6, if_neg h7,
      if_neg h8, if_neg h9, if_pos h10]
    simp only [hex4Chars, List.cons_append, List.nil_append]
    -- not a surrogate, so the single-\u arm applies
    simp [scanStep, hex4_hex4Chars h10, show ¬(55296 ≤ c.toNat ∧ c.toNat ≤ 56319) from
      by omega, show ¬(56320 ≤ c.toNat ∧ c.toNat ≤ 57343) from by omega,
      Char.ofNat_toNat]
  · have hval : c.toNat < 0xd800 ∨ (0xdfff < c.toNat ∧ c.toNat < 0x110000) := c.valid
    have hlt : c.toNat < 0x110000 := by omega
    unfold escapeChar
    rw [if_neg h1, if_neg h2, if_neg h3, if_neg h4, if_neg h5, if_neg h6, if_neg h7,
      if_neg h8, if_neg h9, if_neg h10]
    simp only [hex4Chars, List.cons_append, List.nil_append, List.append_assoc]
    rw [scanStep_u_pair _ _ _ _ _ _ _ _
      (0xd800 + (c.toNat - 0x10000) / 1024) (0xdc00 + (c.toNat - 0x10000) % 1024) w
      (hex4_hex4Chars (by omega)) (hex4_hex4Chars (by omega))
      (by omega) (by omega) (by omega) (by omega)]
    have harg : 0x10000 + (0xd800 + (c.toNat - 0x10000) / 1024 - 0xd800) * 1024
        + (0xdc00 + (c.toNat - 0x10000) % 1024 - 0xdc00) = c.toNat := by omega
    rw [harg, Char.ofNat_toNat]

theorem scanString_step_char {l : List Char} {c : Char} {rest : List Char}
    (h : scanStep l = some (some c, rest)) :
    scanString l = (scanString rest).map (fun p => (c :: p.1, p.2)) := by
  rw [scanString]
  split
  · rename_i h2
    rw [h2] at h
    cases h
  · rename_i rest2 h2
    rw [h2] at h
    cases h
  · rename_i c2 rest2 h2
    rw [h2] at h
    cases h
    cases hs : scanString rest <;> simp

theorem scanString_step_close {l rest : List Char}
    (h : scanStep l = some (none, rest)) :
    scanString l = some ([], rest) := by
  rw [scanString]
  split
  · rename_i h2
    rw [h2] at h
    cases h
  · rename_i rest2 h2
    rw [h2] at h
    cases h
    rfl
  · rename_i c2 rest2 h2
    rw [h2] at h
    cases h

theorem scanString_escChars (cs : List Char) :
    ∀ w, scanString (escChars cs ++ '"' :: w) = some (cs, w) := by
  induction cs with
  | nil =>
    intro w
    have hstep : scanStep ('"' :: w) = some (none, w) := by simp [scanStep]
    simpa [escChars] using scanString_step_close hstep
  | cons c cs ih =>
    intro w
    have hshape : escChars (c :: cs) ++ '"' :: w
        = escapeChar c ++ (escChars cs ++ '"' :: w) := by
      simp [escChars, List.append_assoc]
    rw [hshape, scanString_step_char (scanStep_escapeChar c (escChars cs ++ '"' :: w)),
      ih w]
    rfl

/-! ### Serialize/parse roundtrip: numbers and values -/

/-- Well-formedness of a modelled value: a float keeps at least one
fractional digit and all its digits are decimal digits.  (This is an
invariant of every value the converters produce.) -/
def JWF : JValue → Prop
  | JValue.jfloat _ _ fp => fp ≠ [] ∧ ∀ d ∈ fp, d < 10
  | _ => True

/-- The rest of the input after a serialized value starts with a comma
or a closing brace (the only two contexts a document line uses). -/
def Delim (w : List Char) : Prop :=
  w.head? = some ',' ∨ w.head? = some '\x7d'

theorem delim_head {w : List Char} (hw : Delim w) :
    ∀ c, w.head? = some c → Char.isDigit c = false ∧ c ≠ '.' ∧ isWsChar c = false
      ∧ c ≠ '-' ∧ c ≠ '"' ∧ c ≠ 'n' := by
  intro c hc
  rcases hw with hw | hw <;>
    (rw [hc] at hw; cases hw; refine ⟨by decide, by decide, by decide, by decide,
      by decide, by decide⟩)

theorem digitChar_isDigit {d : Nat} (h : d < 10) : (digitChar d).isDigit = true := by
  interval_cases d <;> decide

theorem digitChar_facts {d : Nat} (h : d < 10) :
    (digitChar d) ≠ '-' ∧ isWsChar (digitChar d) = false ∧ (digitChar d).toNat - 48 = d := by
  interval_cases d <;> refine ⟨by decide, by decide, by decide⟩

theorem digitChar_ne_zero {d : Nat} (h1 : 1 ≤ d) (h2 : d < 10) : digitChar d ≠ '0' := by
  interval_cases d <;> decide

theorem takeWhile_append_all {p : Char → Bool} :
    ∀ (l r : List Char), (∀ x ∈ l, p x = true) →
      (l ++ r).takeWhile p = l ++ r.takeWhile p := by
  intro l r
  induction l with
  | nil => intro _; rfl
  | cons c cs ih =>
    intro hall
    simp only [List.cons_append, List.takeWhile_cons, hall c (by simp)]
    rw [ih (fun x hx => hall x (by simp [hx]))]
    simp

theorem dropWhile_append_all {p : Char → Bool} :
    ∀ (l r : List Char), (∀ x ∈ l, p x = true) →
      (l ++ r).dropWhile p = r.dropWhile p := by
  intro l r
  induction l with
  | nil => intro _; rfl
  | cons c cs ih =>
    intro hall
    simp only [List.cons_append, List.dropWhile_cons, hall c (by simp)]
    exact ih (fun x hx => hall x (by simp [hx]))

theorem takeWhile_nil_of_head {p : Char → Bool} {w : List Char}
    (hw : ∀ c, w.head? = some c → p c = false) : w.takeWhile p = [] := by
  match w with
  | [] => rfl
  | c :: t =>
    simp only [List.takeWhile_cons, hw c rfl]
    simp

theorem dropWhile_id_of_head {p : Char → Bool} {w : List Char}
    (hw : ∀ c, w.head? = some c → p c = false) : w.dropWhile p = w := by
  match w with
  | [] => rfl
  | c :: t =>
    simp only [List.dropWhile_cons, hw c rfl]
    simp

theorem foldl_digit_eq :
    ∀ (ds : List Nat) (a : Nat), (∀ d ∈ ds, d < 10) →
      List.foldl (fun x c => x * 10 + (c.toNat - 48)) a (ds.map digitChar)
        = List.foldl (fun x d => x * 10 + d) a ds := by
  intro ds
  induction ds with
  | nil => intro a _; rfl
  | cons d t ih =>
    intro a hall
    simp only [List.map_cons, List.foldl_cons]
    rw [(digitChar_facts (hall d (by simp))).2.2]
    exact ih _ (fun x hx => hall x (by simp [hx]))

theorem digitCharsVal_natChars (n : Nat) : digitCharsVal (natChars n) = n := by
  unfold digitCharsVal natChars
  rw [foldl_digit_eq (natDigits n) 0 (natDigits_lt10 n)]
  exact natDigits_val n

theorem map_val_digitChar :
    ∀ (fp : List Nat), (∀ d ∈ fp, d < 10) →
      (fp.map digitChar).map (fun c => c.toNat - 48) = fp := by
  intro fp
  induction fp with
  | nil => intro _; rfl
  | cons d t ih =>
    intro hall
    simp only [List.map_cons]
    rw [(digitChar_facts (hall d (by simp))).2.2, ih (fun x hx => hall x (by simp [hx]))]

/-- The first character of `natChars n` is a digit character. -/
theorem natChars_shape (n : Nat) :
    ∃ d t, natChars n = digitChar d :: t ∧ d < 10 := by
  by_cases h : n = 0
  · subst h
    exact ⟨0, [], rfl, by omega⟩
  · obtain ⟨d, ds, hds, hd⟩ := natDigits_pos_shape n (by omega)
    refine ⟨d, ds.map digitChar, ?_, ?_⟩
    · simp [natChars, hds]
    · have := natDigits_lt10 n d (by rw [hds]; simp)
      omega

theorem parseIntDigits_natChars (n : Nat) (w : List Char)
    (hw : ∀ c, w.head? = some c → Char.isDigit c = false) :
    parseIntDigits (natChars n ++ w) = some (natChars n, w) := by
  by_cases h : n = 0
  · subst h
    show parseIntDigits ('0' :: w) = some (['0'], w)
    simp [parseIntDigits]
  · obtain ⟨d, ds, hds, hd⟩ := natDigits_pos_shape n (by omega)
    have hlt : ∀ x ∈ natDigits n, x < 10 := natDigits_lt10 n
    have hd10 : d < 10 := hlt d (by rw [hds]; simp)
    have hds10 : ∀ x ∈ ds, x < 10 := fun x hx => hlt x (by rw [hds]; simp [hx])
    have hnc : natChars n = digitChar d :: ds.map digitChar := by
      simp [natChars, hds]
    rw [hnc]
    simp only [List.cons_append, parseIntDigits,
      if_neg (digitChar_ne_zero hd hd10), digitChar_isDigit hd10, if_pos rfl]
    rw [takeWhile_append_all _ _ (by
        intro x hx
        obtain ⟨d2, hd2, hxeq⟩ := List.mem_map.mp hx
        subst hxeq
        exact digitChar_isDigit (hds10 d2 hd2)),
      dropWhile_append_all _ _ (by
        intro x hx
        obtain ⟨d2, hd2, hxeq⟩ := List.mem_map.mp hx
        subst hxeq
        exact digitChar_isDigit (hds10 d2 hd2)),
      takeWhile_nil_of_head hw, dropWhile_id_of_head hw]
    simp

theorem parseFrac_none_of_head {w : List Char}
    (hw : ∀ c, w.head? = some c → c ≠ '.') : parseFrac w = none := by
  match w with
  | [] => rfl
  | c :: t =>
    simp only [parseFrac, if_neg (hw c rfl)]

theorem parseNumberCore_natChars (n : Nat) (w : List Char)
    (hw : ∀ c, w.head? = some c → Char.isDigit c = false ∧ c ≠ '.') :
    parseNumberCore (natChars n ++ w) = some (JValue.jint (Int.ofNat n), w) := by
  unfold parseNumberCore
  simp only [parseIntDigits_natChars n w (fun c hc => (hw c hc).1),
    parseFrac_none_of_head (fun c hc => (hw c hc).2), digitCharsVal_natChars]

theorem parseNumberCore_floatChars (ip : Nat) (fp : List Nat) (w : List Char)
    (hfp : fp ≠ []) (hfp10 : ∀ d ∈ fp, d < 10)
    (hw : ∀ c, w.head? = some c → Char.isDigit c = false) :
    parseNumberCore (natChars ip ++ '.' :: fp.map digitChar ++ w)
      = some (JValue.jfloat false ip fp, w) := by
  unfold parseNumberCore
  have hshape : natChars ip ++ '.' :: fp.map digitChar ++ w
      = natChars ip ++ ('.' :: (fp.map digitChar ++ w)) := by
    simp
  rw [hshape, parseIntDigits_natChars ip _ (by intro c hc; cases hc; decide)]
  have htw : (fp.map digitChar ++ w).takeWhile Char.isDigit = fp.map digitChar := by
    rw [takeWhile_append_all _ _ (by
        intro x hx
        obtain ⟨d2, hd2, hxeq⟩ := List.mem_map.mp hx
        subst hxeq
        exact digitChar_isDigit (hfp10 d2 hd2)),
      takeWhile_nil_of_head hw, List.append_nil]
  have hdw : (fp.map digitChar ++ w).dropWhile Char.isDigit = w := by
    rw [dropWhile_append_all _ _ (by
        intro x hx
        obtain ⟨d2, hd2, hxeq⟩ := List.mem_map.mp hx
        subst hxeq
        exact digitChar_isDigit (hfp10 d2 hd2)),
      dropWhile_id_of_head hw]
  simp only [parseFrac, if_pos rfl, htw, hdw]
  match hfpc : fp.map digitChar with
  | [] =>
    exact absurd (List.map_eq_nil_iff.mp hfpc) hfp
  | fc :: ft =>
    have hval : List.map (fun c => c.toNat - 48) (fc :: ft) = fp := by
      rw [← hfpc]
      exact map_val_digitChar fp hfp10
    simp [hval, digitCharsVal_natChars]

theorem digitChar_facts2 {d : Nat} (h : d < 10) :
    digitChar d ≠ '"' ∧ digitChar d ≠ 'n' ∧ digitChar d ≠ '-' := by
  interval_cases d <;> refine ⟨by decide, by decide, by decide⟩

theorem parseNumber_natChars (n : Nat) (w : List Char) (hw : Delim w) :
    parseNumber (natChars n ++ w) = some (JValue.jint (Int.ofNat n), w) := by
  obtain ⟨d, t, hshape, hd⟩ := natChars_shape n
  rw [hshape, List.cons_append]
  simp only [parseNumber, if_neg (digitChar_facts2 hd).2.2]
  rw [← List.cons_append, ← hshape]
  exact parseNumberCore_natChars n w
    (fun c hc => ⟨(delim_head hw c hc).1, (delim_head hw c hc).2.1⟩)

theorem parseNumber_intChars (i : Int) (w : List Char) (hw : Delim w) :
    parseNumber (intChars i ++ w) = some (JValue.jint i, w) := by
  by_cases hneg : i < 0
  · unfold intChars
    rw [if_pos hneg]
    rw [show ('-' :: natChars i.natAbs) ++ w = '-' :: (natChars i.natAbs ++ w) from by simp]
    have hcore := parseNumberCore_natChars i.natAbs w
      (fun c hc => ⟨(delim_head hw c hc).1, (delim_head hw c hc).2.1⟩)
    have h2 : -(Int.ofNat i.natAbs) = i := by
      rw [Int.ofNat_eq_natCast]
      omega
    simp only [parseNumber]
    rw [if_pos True.intro, hcore]
    simp only [h2]
  · unfold intChars
    rw [if_neg hneg]
    rw [parseNumber_natChars i.toNat w hw]
    have : Int.ofNat i.toNat = i := Int.toNat_of_nonneg (by omega)
    rw [this]

theorem parseNumber_floatChars (neg : Bool) (ip : Nat) (fp : List Nat) (w : List Char)
    (hfp : fp ≠ []) (hfp10 : ∀ d ∈ fp, d < 10) (hw : Delim w) :
    parseNumber (dumpsJValueChars (JValue.jfloat neg ip fp) ++ w)
      = some (JValue.jfloat neg ip fp, w) := by
  have hcore := parseNumberCore_floatChars ip fp w hfp hfp10
    (fun c hc => (delim_head hw c hc).1)
  cases neg with
  | false =>
    rw [show dumpsJValueChars (JValue.jfloat false ip fp) ++ w
        = natChars ip ++ '.' :: List.map digitChar fp ++ w from by
      simp [dumpsJValueChars]]
    obtain ⟨d, t, hshape, hd⟩ := natChars_shape ip
    rw [show natChars ip ++ '.' :: List.map digitChar fp ++ w
        = digitChar d :: (t ++ ('.' :: List.map digitChar fp ++ w)) from by
      rw [hshape]; simp]
    simp only [parseNumber]
    rw [if_neg (digitChar_facts2 hd).2.2]
    rw [show digitChar d :: (t ++ ('.' :: List.map digitChar fp ++ w))
        = natChars ip ++ '.' :: List.map digitChar fp ++ w from by
      rw [hshape]; simp]
    exact hcore
  | true =>
    rw [show dumpsJValueChars (JValue.jfloat true ip fp) ++ w
        = '-' :: (natChars ip ++ '.' :: List.map digitChar fp ++ w) from by
      simp [dumpsJValueChars]]
    simp only [parseNumber]
    rw [if_pos True.intro, hcore]

theorem string_mk_data (s : String) : String.mk s.data = s := rfl

theorem dumpsStringChars_append (k : String) (X : List Char) :
    dumpsStringChars k ++ X = '"' :: (escChars k.data ++ '"' :: X) := by
  simp [dumpsStringChars]

/-- Every serialized value parses back, when followed by a comma or
closing brace. -/
theorem parseValue_dumps (v : JValue) (hwf : JWF v) (w : List Char) (hw : Delim w) :
    parseValue (dumpsJValueChars v ++ w) = some (v, w) := by
  match v with
  | JValue.jnull =>
    show parseValue ('n' :: 'u' :: 'l' :: 'l' :: w) = some (JValue.jnull, w)
    simp [parseValue, parseNull]
  | JValue.jstr s =>
    show parseValue (dumpsStringChars s ++ w) = some (JValue.jstr s, w)
    rw [dumpsStringChars_append]
    simp [parseValue, scanString_escChars s.data w]
  | JValue.jint i =>
    show parseValue (intChars i ++ w) = some (JValue.jint i, w)
    have hhead : ∃ c t, intChars i = c :: t ∧ c ≠ '"' ∧ c ≠ 'n' := by
      unfold intChars
      by_cases hneg : i < 0
      · exact ⟨'-', _, by rw [if_pos hneg], by decide, by decide⟩
      · obtain ⟨d, t, hshape, hd⟩ := natChars_shape i.toNat
        exact ⟨digitChar d, t, by rw [if_neg hneg, hshape],
          (digitChar_facts2 hd).1, (digitChar_facts2 hd).2.1⟩
    obtain ⟨c, t, hct, hcq, hcn⟩ := hhead
    rw [hct, List.cons_append]
    simp only [parseValue, if_neg hcq, if_neg hcn]
    rw [← List.cons_append, ← hct]
    exact parseNumber_intChars i w hw
  | JValue.jfloat neg ip fp =>
    obtain ⟨hfp, hfp10⟩ := hwf
    have hhead : ∃ c t, dumpsJValueChars (JValue.jfloat neg ip fp) = c :: t
        ∧ c ≠ '"' ∧ c ≠ 'n' := by
      cases neg with
      | false =>
        obtain ⟨d, t, hshape, hd⟩ := natChars_shape ip
        refine ⟨digitChar d, t ++ ('.' :: fp.map digitChar), ?_,
          (digitChar_facts2 hd).1, (digitChar_facts2 hd).2.1⟩
        rw [show dumpsJValueChars (JValue.jfloat false ip fp)
            = natChars ip ++ ('.' :: fp.map digitChar) from by simp [dumpsJValueChars],
          hshape, List.cons_append]
      | true =>
        refine ⟨'-', natChars ip ++ ('.' :: fp.map digitChar), ?_, by decide, by decide⟩
        rw [show dumpsJValueChars (JValue.jfloat true ip fp)
            = '-' :: (natChars ip ++ ('.' :: fp.map digitChar)) from by
          simp [dumpsJValueChars]]
    obtain ⟨c, t, hct, hcq, hcn⟩ := hhead
    rw [hct, List.cons_append]
    simp only [parseValue, if_neg hcq, if_neg hcn]
    rw [← List.cons_append, ← hct]
    exact parseNumber_floatChars neg ip fp w hfp hfp10 hw

/-- The serialized form of any value starts with a non-whitespace
character. -/
theorem dumps_head_not_ws (v : JValue) :
    ∃ c t, dumpsJValueChars v = c :: t ∧ isWsChar c = false := by
  match v with
  | JValue.jnull => exact ⟨'n', _, rfl, by decide⟩
  | JValue.jstr s => exact ⟨'"', _, rfl, by decide⟩
  | JValue.jint i =>
    by_cases hneg : i < 0
    · refine ⟨'-', natChars i.natAbs, ?_, by decide⟩
      simp [dumpsJValueChars, intChars, hneg]
    · obtain ⟨d, t, hshape, hd⟩ := natChars_shape i.toNat
      refine ⟨digitChar d, t, ?_, (digitChar_facts hd).2.1⟩
      simp [dumpsJValueChars, intChars, hneg, hshape]
  | JValue.jfloat neg ip fp =>
    cases neg with
    | false =>
      obtain ⟨d, t, hshape, hd⟩ := natChars_shape ip
      refine ⟨digitChar d, t ++ ('.' :: fp.map digitChar), ?_, (digitChar_facts hd).2.1⟩
      rw [show dumpsJValueChars (JValue.jfloat false ip fp)
          = natChars ip ++ ('.' :: fp.map digitChar) from by simp [dumpsJValueChars],
        hshape, List.cons_append]
    | true =>
      refine ⟨'-', natChars ip ++ ('.' :: fp.map digitChar), ?_, by decide⟩
      rw [show dumpsJValueChars (JValue.jfloat true ip fp)
          = '-' :: (natChars ip ++ ('.' :: fp.map digitChar)) from by
        simp [dumpsJValueChars]]

theorem skipWs_cons_not_ws {c : Char} {t : List Char} (h : isWsChar c = false) :
    skipWs (c :: t) = c :: t := by
  simp only [skipWs, List.dropWhile_cons, h]
  simp

theorem skipWs_cons_ws {c : Char} {t : List Char} (h : isWsChar c = true) :
    skipWs (c :: t) = skipWs t := by
  simp only [skipWs, List.dropWhile_cons, h]
  simp

/-- Every serialized member parses back when followed by a comma or a
closing brace. -/
theorem parseMember_dumps (k : String) (v : JValue) (hwf : JWF v) (w : List Char)
    (hw : Delim w) :
    parseMember (dumpsStringChars k ++ ':' :: ' ' :: (dumpsJValueChars v ++ w))
      = some ((k, v), w) := by
  rw [dumpsStringChars_append]
  have h1 := scanString_escChars k.data (':' :: ' ' :: (dumpsJValueChars v ++ w))
  have h2 : skipWs (':' :: ' ' :: (dumpsJValueChars v ++ w))
      = ':' :: (' ' :: (dumpsJValueChars v ++ w)) := skipWs_cons_not_ws (by decide)
  obtain ⟨c, t, hct, hcw⟩ := dumps_head_not_ws v
  have hskip : skipWs (' ' :: (dumpsJValueChars v ++ w)) = dumpsJValueChars v ++ w := by
    rw [skipWs_cons_ws (by decide), hct, List.cons_append, skipWs_cons_not_ws hcw]
  have h3 : parseValue (skipWs (' ' :: (dumpsJValueChars v ++ w))) = some (v, w) := by
    rw [hskip, parseValue_dumps v hwf w hw]
  simp only [parseMember, eq_self_iff_true, if_true, h1, h2, h3, string_mk_data]

theorem parseMembers_step_close {l : List Char} {kv : String × JValue}
    {rest r2 : List Char}
    (h : parseMember l = some (kv, rest)) (h2 : skipWs rest = '\x7d' :: r2) :
    parseMembers l = some ([kv], r2) := by
  rw [parseMembers]
  split
  · rename_i h3
    rw [h3] at h
    cases h
  · rename_i kv2 rest2 h3
    rw [h3] at h
    cases h
    split
    · rename_i h4
      rw [h4] at h2
      cases h2
    · rename_i c r2x h4
      rw [h4] at h2
      cases h2
      rw [if_neg (by decide), if_pos rfl]

theorem parseMembers_step_comma {l : List Char} {kv : String × JValue}
    {rest r2 : List Char} {ps : List (String × JValue)} {r3 : List Char}
    (h : parseMember l = some (kv, rest)) (h2 : skipWs rest = ',' :: r2)
    (h3 : parseMembers (skipWs r2) = some (ps, r3)) :
    parseMembers l = some (kv :: ps, r3) := by
  rw [parseMembers]
  split
  · rename_i h4
    rw [h4] at h
    cases h
  · rename_i kv2 rest2 h4
    rw [h4] at h
    cases h
    split
    · rename_i h5
      rw [h5] at h2
      cases h2
    · rename_i c r2x h5
      rw [h5] at h2
      cases h2
      rw [if_pos rfl]
      simp only [h3]

/-- The serialized members of a nonempty document start with a quote. -/
theorem dumpsPairsChars_head_quote :
    ∀ (ps : List (String × JValue)), ps ≠ [] →
      ∃ t, dumpsPairsChars ps = '"' :: t := by
  intro ps hne
  match ps with
  | [(k, v)] =>
    refine ⟨escChars k.data ++ '"' :: (':' :: ' ' :: dumpsJValueChars v), ?_⟩
    show dumpsStringChars k ++ ':' :: ' ' :: dumpsJValueChars v = _
    rw [dumpsStringChars_append]
  | (k, v) :: q :: rest =>
    refine ⟨escChars k.data ++ '"' :: (':' :: ' ' ::
      (dumpsJValueChars v ++ ',' :: ' ' :: dumpsPairsChars (q :: rest))), ?_⟩
    simp [dumpsPairsChars, dumpsStringChars_append]

/-- Every serialized nonempty member list, followed by the closing
brace, parses back to the member list. -/
theorem parseMembers_dumps :
    ∀ (ps : List (String × JValue)), ps ≠ [] → (∀ p ∈ ps, JWF p.2) →
      ∀ w, parseMembers (dumpsPairsChars ps ++ '\x7d' :: w) = some (ps, w) := by
  intro ps
  induction ps with
  | nil => intro h; exact absurd rfl h
  | cons p ps ih =>
    intro _ hwf w
    obtain ⟨k, v⟩ := p
    match ps with
    | [] =>
      have hshape : dumpsPairsChars [(k, v)] ++ '\x7d' :: w
          = dumpsStringChars k ++ ':' :: ' '
            :: (dumpsJValueChars v ++ ('\x7d' :: w)) := by
        show (dumpsStringChars k ++ ':' :: ' ' :: dumpsJValueChars v) ++ '\x7d' :: w = _
        simp
      rw [hshape]
      have hm := parseMember_dumps k v (hwf (k, v) (by simp)) ('\x7d' :: w)
        (Or.inr rfl)
      exact parseMembers_step_close hm (skipWs_cons_not_ws (by decide))
    | q :: rest =>
      have hshape : dumpsPairsChars ((k, v) :: q :: rest) ++ '\x7d' :: w
          = dumpsStringChars k ++ ':' :: ' '
            :: (dumpsJValueChars v
              ++ (',' :: ' ' :: (dumpsPairsChars (q :: rest) ++ '\x7d' :: w))) := by
        simp [dumpsPairsChars]
      rw [hshape]
      have hm := parseMember_dumps k v (hwf (k, v) (by simp))
        (',' :: ' ' :: (dumpsPairsChars (q :: rest) ++ '\x7d' :: w)) (Or.inl rfl)
      obtain ⟨t, ht⟩ := dumpsPairsChars_head_quote (q :: rest) (by simp)
      have hskip : skipWs (' ' :: (dumpsPairsChars (q :: rest) ++ '\x7d' :: w))
          = dumpsPairsChars (q :: rest) ++ '\x7d' :: w := by
        rw [skipWs_cons_ws (by decide), ht, List.cons_append,
          skipWs_cons_not_ws (by decide)]
      have hrec := ih (by simp) (fun p hp => hwf p (by simp [hp])) w
      have h3 : parseMembers
          (skipWs (' ' :: (dumpsPairsChars (q :: rest) ++ '\x7d' :: w)))
          = some (q :: rest, w) := by rw [hskip, hrec]
      exact parseMembers_step_comma hm (skipWs_cons_not_ws (by decide)) h3

/-- `dict.__setitem__` on an absent key appends. -/
theorem upsert_not_mem :
    ∀ (acc : List (String × JValue)) (k : String) (v : JValue),
      (∀ q ∈ acc, q.1 ≠ k) → upsert acc k v = acc ++ [(k, v)] := by
  intro acc
  induction acc with
  | nil => intro k v _; rfl
  | cons q t ih =>
    intro k v hall
    obtain ⟨k0, v0⟩ := q
    simp only [upsert, if_neg (hall (k0, v0) (by simp))]
    rw [ih k v (fun q hq => hall q (by simp [hq]))]
    rfl

theorem foldl_upsert :
    ∀ (ps acc : List (String × JValue)),
      (∀ p ∈ ps, ∀ q ∈ acc, q.1 ≠ p.1) →
      (ps.map Prod.fst).Pairwise (fun a b => a ≠ b) →
      List.foldl (fun acc kv => upsert acc kv.1 kv.2) acc ps = acc ++ ps := by
  intro ps
  induction ps with
  | nil => intro acc _ _; simp
  | cons p t ih =>
    intro acc hdisj hpw
    simp only [List.map_cons, List.pairwise_cons] at hpw
    obtain ⟨hhead, htail⟩ := hpw
    simp only [List.foldl_cons]
    rw [upsert_not_mem acc p.1 p.2 (fun q hq => hdisj p (by simp) q hq)]
    rw [ih (acc ++ [p]) ?_ htail]
    · simp
    · intro x hx q hq
      rcases List.mem_append.mp hq with hq | hq
      · exact hdisj x (by simp [hx]) q hq
      · rcases List.mem_singleton.mp hq with rfl
        exact hhead _ (List.mem_map_of_mem _ hx)

theorem collapseDict_id (ps : List (String × JValue))
    (hkeys : (ps.map Prod.fst).Pairwise (fun a b => a ≠ b)) :
    collapseDict ps = ps := by
  unfold collapseDict
  have := foldl_upsert ps [] (by simp) hkeys
  simpa using this

/-- A document with pairwise-distinct keys and well-formed values
round-trips through `json.dumps` / `json.loads`. -/
theorem dumpsObj_parse (pairs : List (String × JValue))
    (hkeys : (pairs.map Prod.fst).Pairwise (fun a b => a ≠ b))
    (hvals : ∀ p ∈ pairs, JWF p.2) :
    parseDocLine (dumpsObj pairs) = some pairs := by
  match pairs with
  | [] => rfl
  | p :: rest =>
    obtain ⟨t, ht⟩ := dumpsPairsChars_head_quote (p :: rest) (by simp)
    have hdata : (dumpsObj (p :: rest)).data
        = '\x7b' :: (dumpsPairsChars (p :: rest) ++ ['\x7d']) := rfl
    have h1 : skipWs ((dumpsObj (p :: rest)).data)
        = '\x7b' :: (dumpsPairsChars (p :: rest) ++ ['\x7d']) := by
      rw [hdata, skipWs_cons_not_ws (by decide)]
    have hsk : skipWs (dumpsPairsChars (p :: rest) ++ ['\x7d'])
        = '"' :: (t ++ ['\x7d']) := by
      rw [ht, List.cons_append, skipWs_cons_not_ws (by decide)]
    have hms : parseMembers ('"' :: (t ++ ['\x7d'])) = some (p :: rest, []) := by
      have hpm := parseMembers_dumps (p :: rest) (by simp) hvals []
      rw [ht] at hpm
      simpa using hpm
    have hobj : parseObjChars ('\x7b' :: (dumpsPairsChars (p :: rest) ++ ['\x7d']))
        = some (p :: rest, []) := by
      simp only [parseObjChars, eq_self_iff_true, if_true, hsk]
      rw [if_neg (by decide)]
      exact hms
    simp only [parseDocLine, h1, hobj]
    rw [if_pos (show skipWs ([] : List Char) = [] from rfl),
      collapseDict_id (p :: rest) hkeys]

/-- Values produced by `float(str)`'s core keep at least one decimal
fractional digit and only digits below ten. -/
theorem pyFloatCore_wf (neg : Bool) (l : List Char) (v : JValue)
    (h : pyFloatCore neg l = Except.ok v) : JWF v := by
  unfold pyFloatCore at h
  repeat' split at h
  all_goals cases h
  · exact ⟨by simp, by simp⟩
  · rename_i heq
    constructor
    · intro hmap
      apply heq
      by_contra hne2
      obtain ⟨a, as, hx⟩ := List.exists_cons_of_ne_nil hne2
      rw [hx] at hmap
      simp at hmap
    · intro d hd
      simp only [List.mem_map] at hd
      obtain ⟨c, hc, hdc⟩ := hd
      have hdig := List.mem_takeWhile_imp hc
      have := isDigit_toNat hdig
      omega
  · exact ⟨by simp, by simp⟩

/-- Values produced by `float(str)` are well formed. -/
theorem pyFloat_wf (s : String) (v : JValue) (h : pyFloat s = Except.ok v) : JWF v := by
  unfold pyFloat at h
  split at h
  · exact pyFloatCore_wf _ _ _ h
  · exact pyFloatCore_wf _ _ _ h
  · exact pyFloatCore_wf _ _ _ h

/-- Every value a converter produces is well formed. -/
theorem applyFormatter_wf (f : Formatter) (s : String) (v : JValue)
    (h : applyFormatter f s = Except.ok v) : JWF v := by
  match f with
  | Formatter.fstr =>
    simp only [applyFormatter] at h
    cases h
    trivial
  | Formatter.fint =>
    simp only [applyFormatter] at h
    split at h
    · cases h
    · cases h
      trivial
  | Formatter.ffloat =>
    simp only [applyFormatter] at h
    exact pyFloat_wf s v h
  | Formatter.fcoords =>
    simp only [applyFormatter] at h
    split at h
    · cases h
      trivial
    · cases h
      trivial

/-- Every value the hydration loop writes is well formed. -/
theorem hydrate_values_wf :
    ∀ (table : List (String × MappedField)) (row : String → Option String)
      (last0 : Option MappedField) (d : List (String × JValue)) (lm : Option MappedField),
      hydrateFields row table last0 = Except.ok (d, lm) → ∀ p ∈ d, JWF p.2 := by
  intro table
  induction table with
  | nil =>
    intro row last0 d lm h p hp
    simp only [hydrateFields] at h
    cases h
    simp at hp
  | cons e rest ih =>
    intro row last0 d lm h p hp
    obtain ⟨col, m⟩ := e
    simp only [hydrateFields] at h
    split at h
    · exact ih row (some m) d lm h p hp
    · rename_i raw hraw
      split at h
      · split at h
        · cases h
        · rename_i tail lm2 htail
          cases h
          rcases List.mem_cons.mp hp with hp | hp
          · rw [hp]
            trivial
          · exact ih row (some m) tail lm htail p hp
      · split at h
        · cases h
        · rename_i v hv
          split at h
          · cases h
          · rename_i tail lm2 htail
            cases h
            rcases List.mem_cons.mp hp with hp | hp
            · rw [hp]
              exact applyFormatter_wf m.row_formatter raw v hv
            · exact ih row (some m) tail lm htail p hp

/-- A hydrated document has pairwise-distinct keys and well-formed
values. -/
theorem documentFromRow_fields (row : String → Option String)
    (res : HydratedDocumentResponse)
    (h : documentFromRow row = Except.ok res) :
    (res.document.map Prod.fst).Pairwise (fun a b => a ≠ b)
      ∧ ∀ p ∈ res.document, JWF p.2 := by
  simp only [documentFromRow] at h
  split at h
  · cases h
  · cases h
  · rename_i d m hd
    cases h
    constructor
    · exact (rowToField_names_pairwise).sublist
        (hydrate_keys_sublist ROW_TO_FIELD row none d (some m) hd)
    · exact hydrate_values_wf ROW_TO_FIELD row none d (some m) hd

/-- C8: serializing a hydrated document to its bulk action/document
line pair and re-parsing the document line with `json.loads` returns
exactly the original fields, and the pair the bulk buffer receives for
the document is its action line followed by that serialized document
line. -/
theorem bulk_roundtrip (row : String → Option String)
    (res : HydratedDocumentResponse)
    (h : documentFromRow row = Except.ok res) :
    parseDocLine (dumpsObj res.document) = some res.document
      ∧ ∀ idx, documentToIndexName res.document = Except.ok idx →
          chunkPayload [res.document]
            = Except.ok [actionLine idx, dumpsObj res.document] := by
  obtain ⟨hkeys, hvals⟩ := documentFromRow_fields row res h
  refine ⟨dumpsObj_parse res.document hkeys hvals, ?_⟩
  intro idx hidx
  simp only [chunkPayload, hidx]

/-- Witness: for the concrete row `witnessRow`, the hydrated document
round-trips through serialization. -/
theorem bulk_roundtrip_witness :
    parseDocLine (dumpsObj witnessDoc) = some witnessDoc :=
  (bulk_roundtrip witnessRow
    { field_mapping := coordinatesField, document := witnessDoc } (by decide)).1

end Atx311
